import Mathlib

/-!
Verification development for the `mast` repository (a Merkle Search Tree).

The Go sources under verification are `pub.go` (public operations `Insert`, `Delete`,
`Get`, `MakeRoot`, `LoadMast`, `NewRoot`, `Size`, `flush`) and `store.go`
(serialized-node loading via `contentHash.Load`).  Keys are modelled as `Nat`
(Go `interface{}` keys with a total order), values as `Option Int` (Go
`interface{}` values, where `none` models a Go `nil` value).  Machine integers
(`uint64`) are modelled as `Nat` with explicit `% 2^64` at the multiplications
where Go wraps around.  Fallible Go calls return an explicit result type `Res`
with an `err` case (Go non-nil `error`) and a `panic` case (Go runtime panic,
e.g. out-of-bounds slice indexing).

Engine functions that `pub.go` calls but whose definitions are not part of the
two source files (`findNode`, `split`, `mergeNodes`, `grow`, `shrink`,
`savePathForRoot`, `canGrow`, `emptyNodePointer`, `defaultOrder`,
`defaultLayer`, `checkRoot`, `node.store`) are modelled from the specification
and are marked `Modelled from the spec:` in their doc comments.
-/

/-- Keys of the tree. Go uses `interface{}` with a user total order; the model fixes `Nat`. -/
abbrev K := Nat

/-- Values of the tree. Go uses `interface{}`; `none` models a Go `nil` value. -/
abbrev V := Option Int

/-- Serialized bytes (Go `[]byte`), kept abstract as a list of naturals. -/
abbrev Bytes := List Nat

/-- Structured model of the Go `error` values produced by the sources.  Go builds errors
with `fmt.Errorf`; wrapping via `%w` is modelled by constructors carrying an inner error,
and the `"key[i] in <id>"`-style location information of `store.go` is carried as the
index and node id arguments of `keyUnmarshal` / `valueUnmarshal`. -/
inductive Err where
  /-- `pub.go` `Delete`: `key %v not present in tree`. -/
  | notFound (k : K)
  /-- `pub.go` `Delete`: `value not present for given key (found=%v, wanted=%v)`. -/
  | valueMismatch (found wanted : V)
  /-- `store.go` `contentHash.Load`: `failed loading %s: %w`. -/
  | loadFailed (id : String) (inner : Err)
  /-- `store.go` `contentHash.Load`: `failed unmarshaling %s: %w`. -/
  | unmarshalFailed (id : String) (inner : Err)
  /-- `store.go` `contentHash.Load`: `cannot unmarshal %s: mismatched keys and values`. -/
  | mismatchedKV (id : String)
  /-- `store.go` `contentHash.Load`: `cannot unmarshal key[%d] in %s: %w`. -/
  | keyUnmarshal (i : Nat) (id : String) (inner : Err)
  /-- `store.go` `contentHash.Load`: `cannot unmarshal value[%d] in %s: %w`. -/
  | valueUnmarshal (i : Nat) (id : String) (inner : Err)
  /-- `pub.go` `flush`: `no persistence mechanism set; ...`. -/
  | noPersist
  /-- Model artefact: recursion fuel exhausted (Go recursion depth is bounded by the
  tree height, so a large enough fuel makes this unreachable). -/
  | outOfFuel
  /-- A `fmt.Errorf("<tag>: %w", inner)` wrapper, e.g. `layer:`, `findNode:`, `merge:`. -/
  | ctx (tag : String) (inner : Err)
  /-- An error produced by an external collaborator (persist store, codec). -/
  | external (msg : String)
deriving DecidableEq, Repr

/-- Result of a Go call: a value, a non-nil `error`, or a runtime panic. -/
inductive Res (α : Type) where
  | ok (a : α)
  | err (e : Err)
  | panic
deriving DecidableEq, Repr

/-- A link slot (source type `link` in `store.go`): Go `nil`, a content hash
(`contentHash`), or an inline in-memory node (`*mastNode`, flattened into its
three parallel lists to avoid mutual recursion). -/
inductive Lnk where
  | nil
  | hash (id : String)
  | node (Key : List K) (Value : List V) (Link : List Lnk)

/-- An in-memory tree node (source type `mastNode`): parallel `Key`/`Value` lists of
equal length and a `Link` list one longer. -/
structure mastNode where
  Key : List K
  Value : List V
  Link : List Lnk

/-- View a `mastNode` as an inline link (`*mastNode` stored in a `link` slot). -/
def Lnk.ofNode (n : mastNode) : Lnk := .node n.Key n.Value n.Link

/-- Serialized node form (source type `stringNodeT` in `store.go`): raw key/value
blobs plus an optional `Link` array (`json:",omitempty"`, so `none` models an
omitted / nil array). -/
structure stringNodeT where
  Key : List Bytes
  Value : List Bytes
  Link : Option (List String)

/-- The `Persist` collaborator of `pub.go` plus the content-hash function the spec
assigns to it ("the collaborator returns the id when storing; it must be a pure
function of bytes"). -/
structure PersistM where
  loadFn : String → Except Err Bytes
  storeFn : String → Bytes → Except Err Unit
  hashFn : Bytes → String

/-- 2^64, the modulus of Go `uint64` arithmetic. -/
def u64 : Nat := 2 ^ 64

/-- The tree handle (source type `Mast`).  `zeroValue` models `m.zeroValue != nil`
(whether value blobs are decoded at all in `contentHash.Load`); the codec fields
model the reflection-driven `m.unmarshal` / `m.marshal` calls specialized to their
target types. -/
structure Mast where
  root : Lnk
  zeroValue : Bool
  keyOrder : K → K → Except Err Int
  keyLayer : K → Nat → Except Err Nat
  branchFactor : Nat
  height : Nat
  size : Nat
  growAfterSize : Nat
  shrinkBelowSize : Nat
  persist : Option PersistM
  unmarshalNode : Bytes → Except Err stringNodeT
  unmarshalKey : Bytes → Except Err K
  unmarshalVal : Bytes → Except Err V
  marshalNode : List K → List V → List String → Except Err Bytes

/-- The published tree version (source type `Root`): `Link` is `*string` in Go, so
`none` models a nil pointer. -/
structure Root where
  Link : Option String
  Size : Nat
  Height : Nat
  BranchFactor : Nat

/-- Decode the key and value blob lists of a serialized node (`store.go`,
`contentHash.Load` loop over `stringNode.Key`).  Value blobs are only decoded when
`m.zeroValue` is set (Go: `if m.zeroValue != nil`), otherwise the value is Go `nil`.
The index argument is the running loop index used in error locations. -/
def decodeEntries (m : Mast) (id : String) :
    List Bytes → List Bytes → Nat → Except Err (List K × List V)
  | [], _, _ => .ok ([], [])
  | _ :: _, [], _ => .ok ([], [])
  | kb :: krest, vb :: vrest, i =>
    match m.unmarshalKey kb with
    | .error e => .error (.keyUnmarshal i id e)
    | .ok k =>
      match (if m.zeroValue then
               match m.unmarshalVal vb with
               | .error e => Except.error (Err.valueUnmarshal i id e)
               | .ok v => Except.ok v
             else Except.ok none) with
      | .error e => .error e
      | .ok v =>
        match decodeEntries m id krest vrest (i + 1) with
        | .error e => .error e
        | .ok (ks, vs) => .ok (k :: ks, v :: vs)

/-- Translate one serialized link string (`store.go` lines 80-86): the empty string
decodes to a nil link, anything else to a content-hash link. -/
def lnkOfStr (s : String) : Lnk := if s = "" then Lnk.nil else Lnk.hash s

/-- The `for i, l := range stringNode.Link` loop of `contentHash.Load`: write each
decoded link into position `i` of the preallocated link array.  Writing past the end
of the array is a Go index-out-of-range panic, modelled by `none`. -/
def fillLinks : List String → List Lnk → Nat → Option (List Lnk)
  | [], acc, _ => some acc
  | s :: rest, acc, i =>
    if i < acc.length then fillLinks rest (acc.set i (lnkOfStr s)) (i + 1)
    else none

/-- `contentHash.Load` from `store.go`: fetch the bytes from the persist store,
unmarshal the outer `stringNodeT`, check the key/value lengths, decode each blob,
and distribute the serialized links over a `len(Key)+1` array of nil links. -/
def contentHash.Load (m : Mast) (id : String) : Res mastNode :=
  match m.persist with
  | none => .panic
  | some p =>
    match p.loadFn id with
    | .error e => .err (.loadFailed id e)
    | .ok bytes =>
      match m.unmarshalNode bytes with
      | .error e => .err (.unmarshalFailed id e)
      | .ok sn =>
        if sn.Key.length ≠ sn.Value.length then .err (.mismatchedKV id)
        else
          match decodeEntries m id sn.Key sn.Value 0 with
          | .error e => .err e
          | .ok (ks, vs) =>
            match sn.Link with
            | none => .ok ⟨ks, vs, List.replicate (sn.Key.length + 1) Lnk.nil⟩
            | some ls =>
              match fillLinks ls (List.replicate (sn.Key.length + 1) Lnk.nil) 0 with
              | none => .panic
              | some links => .ok ⟨ks, vs, links⟩

/-- `m.load(link)` from `store.go`: dispatch on the link kind.  A nil link has no
`Load` method (Go nil-interface method call panics); an inline node loads as itself
(`store.go` line 94); a content hash goes through `contentHash.Load`. -/
def mload (m : Mast) (l : Lnk) : Res mastNode :=
  match l with
  | .nil => .panic
  | .node ks vs ls => .ok ⟨ks, vs, ls⟩
  | .hash id => contentHash.Load m id

/-- Modelled from the spec: an empty in-memory node pointer (`emptyNodePointer`),
a node with no entries and a single nil child link; the branch factor only sizes
the Go slice capacity. -/
def emptyNodePointer (_bf : Nat) : Lnk := Lnk.node [] [] [Lnk.nil]

/-- Modelled from the spec: a fresh empty node used by `findNode` when
`createMissingNodes` materializes a missing child. -/
def emptyNode (_bf : Nat) : mastNode := ⟨[], [], [Lnk.nil]⟩

/-- Modelled from the spec (§4.3 step 1): the insertion point of `k` in the sorted
key list — the first index whose key is `≥ k` under `keyOrder` (the Go code uses a
binary search, which computes the same index on sorted keys). -/
def findIndex (ord : K → K → Except Err Int) (keys : List K) (k : K) : Except Err Nat :=
  match keys with
  | [] => .ok 0
  | x :: rest =>
    match ord x k with
    | .error e => .error e
    | .ok c =>
      if 0 ≤ c then .ok 0
      else
        match findIndex ord rest k with
        | .error e => .error e
        | .ok i => .ok (i + 1)

/-- Modelled from the spec (§4.3): descend from the current node toward the target
layer, recording `(node, index)` pairs on the path (the final node included).  At
each level the insertion index is computed; at the target height the node is
returned; below it, the indexed child link is followed, materializing an empty node
when the link is nil and `createMissingNodes` is set, and otherwise stopping early
(the caller detects the height mismatch).  Returns `(node, index, finalHeight,
path)`. -/
def findNode (m : Mast) :
    Nat → mastNode → K → Nat → Nat → Bool → List (mastNode × Nat) →
    Res (mastNode × Nat × Nat × List (mastNode × Nat))
  | 0, _, _, _, _, _, _ => .err .outOfFuel
  | fuel + 1, n, k, target, cur, create, path =>
    match findIndex m.keyOrder n.Key k with
    | .error e => .err (.ctx "keyCompare" e)
    | .ok i =>
      if cur = target then .ok (n, i, cur, path ++ [(n, i)])
      else
        match n.Link[i]? with
        | none => .panic
        | some Lnk.nil =>
          if create then
            findNode m fuel (emptyNode m.branchFactor) k target (cur - 1) create (path ++ [(n, i)])
          else .ok (n, i, cur, path ++ [(n, i)])
        | some l =>
          match mload m l with
          | .err e => .err e
          | .panic => .panic
          | .ok child => findNode m fuel child k target (cur - 1) create (path ++ [(n, i)])

/-- Modelled from the spec (§4.4 step 4): replace the final path entry's node with the
rebuilt node; the stored index of the final entry is not read by `savePathForRoot`. -/
def setLast (path : List (mastNode × Nat)) (nd : mastNode) : List (mastNode × Nat) :=
  path.dropLast ++ [(nd, 0)]

/-- Modelled from the spec (§4.4 step 4): walk the recorded path from leaf to root,
replacing each parent's link to the mutated child with the new inline child node. -/
def rebuild : List (mastNode × Nat) → mastNode → mastNode
  | [], leaf => leaf
  | (p, i) :: rest, leaf => ⟨p.Key, p.Value, p.Link.set i (Lnk.ofNode (rebuild rest leaf))⟩

/-- Modelled from the spec (§4.4 step 4): `m.savePathForRoot(path)` — propagate the
rebuilt nodes up the recorded path and install the resulting node as the tree root. -/
def savePathForRoot (m : Mast) (path : List (mastNode × Nat)) : Mast :=
  match path.getLast? with
  | none => m
  | some (leaf, _) => { m with root := Lnk.ofNode (rebuild path.dropLast leaf) }

/-- Modelled from the spec (§4.2): package one side produced by `split` — a side with
no entries collapses to its single child link (possibly nil). -/
def mkSide (ks : List K) (vs : List V) (ls : List Lnk) : Lnk :=
  match ks, ls with
  | [], [Lnk.nil] => Lnk.nil
  | [], [l] => l
  | _, _ => Lnk.node ks vs ls

/-- Modelled from the spec (§4.2): `split(node, pivot)` partitions a node by a pivot
key that is not in the node: entries (and flanking links) below the insertion point go
left, the rest right, and the child straddling the pivot is split recursively. -/
def splitNode (m : Mast) : Nat → mastNode → K → Res (Lnk × Lnk)
  | 0, _, _ => .err .outOfFuel
  | fuel + 1, n, pivot =>
    match findIndex m.keyOrder n.Key pivot with
    | .error e => .err (.ctx "keyCompare" e)
    | .ok i =>
      match n.Link[i]? with
      | none => .panic
      | some Lnk.nil =>
        .ok (mkSide (n.Key.take i) (n.Value.take i) (n.Link.take i ++ [Lnk.nil]),
             mkSide (n.Key.drop i) (n.Value.drop i) (Lnk.nil :: n.Link.drop (i + 1)))
      | some cl =>
        match mload m cl with
        | .err e => .err e
        | .panic => .panic
        | .ok child =>
          match splitNode m fuel child pivot with
          | .err e => .err e
          | .panic => .panic
          | .ok (sl, sr) =>
            .ok (mkSide (n.Key.take i) (n.Value.take i) (n.Link.take i ++ [sl]),
                 mkSide (n.Key.drop i) (n.Value.drop i) (sr :: n.Link.drop (i + 1)))

/-- Modelled from the spec (§4.2): `mergeNodes(left, right)` — a nil side yields the
other side; otherwise both nodes are loaded, their entries concatenated, and the two
inner children that meet in the middle merged recursively. -/
def mergeNodes (m : Mast) : Nat → Lnk → Lnk → Res Lnk
  | 0, _, _ => .err .outOfFuel
  | fuel + 1, l, r =>
    match l, r with
    | Lnk.nil, _ => .ok r
    | _, Lnk.nil => .ok l
    | _, _ =>
      match mload m l with
      | .err e => .err e
      | .panic => .panic
      | .ok ln =>
        match mload m r with
        | .err e => .err e
        | .panic => .panic
        | .ok rn =>
          match mergeNodes m fuel ((ln.Link.getLast?).getD Lnk.nil) ((rn.Link.head?).getD Lnk.nil) with
          | .err e => .err e
          | .panic => .panic
          | .ok inner =>
            .ok (Lnk.node (ln.Key ++ rn.Key) (ln.Value ++ rn.Value)
                  (ln.Link.dropLast ++ inner :: rn.Link.tail))

/-- Modelled from the spec (§4.4 step 5 and §9 note 2): `node.canGrow` — whether any
entry of the node has a layer exceeding the given height. -/
def canGrowKeys (height : Nat) (kl : K → Nat → Except Err Nat) (bf : Nat) :
    List K → Except Err Bool
  | [] => .ok false
  | k :: rest =>
    match kl k bf with
    | .error e => .error e
    | .ok l => if height < l then .ok true else canGrowKeys height kl bf rest

/-- Modelled from the spec: `node.canGrow(height, keyLayer, branchFactor)`. -/
def canGrow (n : mastNode) (height : Nat) (kl : K → Nat → Except Err Nat) (bf : Nat) :
    Except Err Bool :=
  canGrowKeys height kl bf n.Key

/-- The `(key, value, following-link)` entries of a node, pairing each entry with the
child link to its right. -/
def entriesOf (n : mastNode) : List (K × V × Lnk) := n.Key.zip (n.Value.zip n.Link.tail)

/-- Modelled from the spec (§4.6 Grow): partition the old root's entries — entries
whose layer exceeds the old height are kept at the new root, each preceded by the node
carved from the entries accumulated since the previous promoted key. -/
def growGo (m : Mast) :
    List (K × V × Lnk) → List K → List V → List Lnk → List K → List V → List Lnk →
    Except Err mastNode
  | [], aK, aV, aL, oK, oV, oL => .ok ⟨oK, oV, oL ++ [mkSide aK aV aL]⟩
  | (k, v, l) :: rest, aK, aV, aL, oK, oV, oL =>
    match m.keyLayer k m.branchFactor with
    | .error e => .error e
    | .ok kl =>
      if m.height < kl then
        growGo m rest [] [] [l] (oK ++ [k]) (oV ++ [v]) (oL ++ [mkSide aK aV aL])
      else growGo m rest (aK ++ [k]) (aV ++ [v]) (aL ++ [l]) oK oV oL

/-- Modelled from the spec (§4.6 Grow): lift the root one level — the promoted
entries form the new root, the rest stay below as carved children; the height and
both thresholds are updated (`uint64` multiplications, hence `% 2^64`). -/
def grow (m : Mast) (_fuel : Nat) : Res Unit × Mast :=
  match mload m m.root with
  | .err e => (.err e, m)
  | .panic => (.panic, m)
  | .ok n =>
    match growGo m (entriesOf n) [] [] [(n.Link.head?).getD Lnk.nil] [] [] [] with
    | .error e => (.err (.ctx "grow" e), m)
    | .ok newRoot =>
      (.ok (), { m with
                 root := Lnk.ofNode newRoot
                 height := m.height + 1
                 shrinkBelowSize := m.shrinkBelowSize * m.branchFactor % u64
                 growAfterSize := m.growAfterSize * m.branchFactor % u64 })

/-- Modelled from the spec (§4.6 Shrink): load each child of the root, a nil link
standing for an empty node. -/
def loadChildren (m : Mast) : List Lnk → Res (List mastNode)
  | [] => .ok []
  | l :: rest =>
    match (match l with
           | Lnk.nil => Res.ok (emptyNode m.branchFactor)
           | _ => mload m l) with
    | .err e => .err e
    | .panic => .panic
    | .ok c =>
      match loadChildren m rest with
      | .err e => .err e
      | .panic => .panic
      | .ok cs => .ok (c :: cs)

/-- Modelled from the spec (§4.6 Shrink): interleave the root's entries with the
contents of its children, producing the folded-down node one level lower. -/
def foldDown : mastNode → List (K × V × mastNode) → mastNode
  | acc, [] => acc
  | acc, (k, v, c) :: rest =>
    foldDown ⟨acc.Key ++ k :: c.Key, acc.Value ++ v :: c.Value, acc.Link ++ c.Link⟩ rest

/-- `b ^ e` in `uint64` arithmetic. -/
def powU64 (b e : Nat) : Nat := b ^ e % u64

/-- Modelled from the spec (§4.6): after a shrink the height drops by one and both
thresholds are recomputed from the new height. -/
def shrunk (m : Mast) (newRoot : Lnk) : Mast :=
  { m with
    root := newRoot
    height := m.height - 1
    shrinkBelowSize := powU64 m.branchFactor (m.height - 1)
    growAfterSize := powU64 m.branchFactor m.height }

/-- Modelled from the spec (§4.6 Shrink): fold the root's entries down into a merged
child one level lower.  A root with no entries is replaced by its sole child;
otherwise every child is loaded (a failing `Persist.Load` aborts the operation) and
the entries are folded between them. -/
def shrink (m : Mast) (_fuel : Nat) : Res Unit × Mast :=
  if m.height = 0 then (.err (.ctx "shrink" (.external "tree is already flat")), m)
  else
    match mload m m.root with
    | .err e => (.err e, m)
    | .panic => (.panic, m)
    | .ok n =>
      match n.Key with
      | [] =>
        (.ok (), shrunk m (match (n.Link.head?).getD Lnk.nil with
                           | Lnk.nil => emptyNodePointer m.branchFactor
                           | l => l))
      | _ :: _ =>
        match loadChildren m n.Link with
        | .err e => (.err (.ctx "shrink" e), m)
        | .panic => (.panic, m)
        | .ok [] => (.panic, m)
        | .ok (c0 :: crest) =>
          (.ok (), shrunk m (Lnk.ofNode (foldDown c0 (n.Key.zip (n.Value.zip crest)))))

/-- The shrink loop at the end of `Delete` (`pub.go` lines 125-130): while the size is
below `shrinkBelowSize` and the tree has height, shrink; a failing shrink aborts the
loop, leaving the already-applied mutations in place. -/
def shrinkLoop (m : Mast) : Nat → Res Unit × Mast
  | 0 => (.err .outOfFuel, m)
  | fuel + 1 =>
    if m.size < m.shrinkBelowSize ∧ 0 < m.height then
      match shrink m fuel with
      | (.ok _, m') => shrinkLoop m' fuel
      | (.err e, m') => (.err e, m')
      | (.panic, m') => (.panic, m')
    else (.ok (), m)

/-- The grow loop of `Insert` (`pub.go` lines 300-316): while the **current** size is
at least `growAfterSize` and the root can grow, grow.  The Go code evaluates `canGrow`
on `options.path[0].node`; `savePathForRoot` keeps the root inline, so this is
modelled (per spec §4.4 step 5) as the current root node. -/
def growLoop (m : Mast) : Nat → Res Unit × Mast
  | 0 => (.err .outOfFuel, m)
  | fuel + 1 =>
    if m.growAfterSize ≤ m.size then
      match mload m m.root with
      | .err e => (.err e, m)
      | .panic => (.panic, m)
      | .ok n =>
        match canGrow n m.height m.keyLayer m.branchFactor with
        | .error e => (.err (.ctx "canGrow" e), m)
        | .ok false => (.ok (), m)
        | .ok true =>
          match grow m fuel with
          | (.ok _, m') => growLoop m' fuel
          | (.err e, m') => (.err e, m')
          | (.panic, m') => (.panic, m')
    else (.ok (), m)

/-- `uint8min` from `pub.go`: the effective target layer `min(keyLayer, height)`. -/
def uint8min (a b : Nat) : Nat := min a b

/-- `Get` from `pub.go` (lines 170-211): returns whether the key is present and, when a
value pointer is supplied (`wantValue`), the value written through it (`none` models
"the memory at the pointer was left unmodified", which happens both when the key is
absent, when no pointer is supplied, and when the stored value is Go `nil`). -/
def Mast.Get (m : Mast) (k : K) (wantValue : Bool) (fuel : Nat) : Res (Bool × Option V) :=
  match m.root with
  | Lnk.nil => .ok (false, none)
  | rl =>
    match mload m rl with
    | .err e => .err e
    | .panic => .panic
    | .ok rootNode =>
      match m.keyLayer k m.branchFactor with
      | .error e => .err (.ctx "layer" e)
      | .ok kl =>
        match findNode m fuel rootNode k (uint8min kl m.height) m.height false [] with
        | .err e => .err e
        | .panic => .panic
        | .ok (node, i, finalH, _) =>
          if node.Key.length ≤ i ∨ uint8min kl m.height ≠ finalH then .ok (false, none)
          else
            match m.keyOrder (node.Key.getD i 0) k with
            | .error e => .err (.ctx "keyCompare" e)
            | .ok c =>
              if c ≠ 0 then .ok (false, none)
              else if wantValue then
                match node.Value.getD i none with
                | none => .ok (true, none)
                | some x => .ok (true, some (some x))
              else .ok (true, none)

/-- The lookup stage of `Insert` (`pub.go` lines 218-235): key layer, root load, and
`findNode` with `createMissingNodes` set. -/
def insertPrep (m : Mast) (k : K) (fuel : Nat) :
    Res (mastNode × Nat × Nat × List (mastNode × Nat) × Nat) :=
  match m.keyLayer k m.branchFactor with
  | .error e => .err (.ctx "layer" e)
  | .ok kl =>
    match mload m m.root with
    | .err e => .err e
    | .panic => .panic
    | .ok rootNode =>
      match findNode m fuel rootNode k (uint8min kl m.height) m.height true [] with
      | .err e => .err e
      | .panic => .panic
      | .ok (node, i, finalH, path) => .ok (node, i, finalH, path, uint8min kl m.height)

/-- The splice-and-grow stage of `Insert` (`pub.go` lines 254-318): insert the new
entry at position `i`, split the straddling child (a nil child yields two nil flanking
links — the fresh `Link` slots are Go zero values), write the path back, run the grow
loop, and only then increment the size. -/
def insertAdd (m : Mast) (node : mastNode) (i : Nat) (path : List (mastNode × Nat))
    (k : K) (v : V) (fuel : Nat) : Res Unit × Mast :=
  match node.Link[i]? with
  | none => (.panic, m)
  | some ol =>
    match (match ol with
           | Lnk.nil => Res.ok (Lnk.nil, Lnk.nil)
           | _ =>
             match mload m ol with
             | .err e => Res.err e
             | .panic => Res.panic
             | .ok child =>
               match splitNode m fuel child k with
               | .err e => Res.err (.ctx "split" e)
               | .panic => Res.panic
               | .ok s => Res.ok s) with
    | .err e => (.err e, m)
    | .panic => (.panic, m)
    | .ok (leftLink, rightLink) =>
      let nd : mastNode := ⟨node.Key.take i ++ k :: node.Key.drop i,
                            node.Value.take i ++ v :: node.Value.drop i,
                            node.Link.take i ++ leftLink :: rightLink :: node.Link.drop (i + 1)⟩
      let m1 := savePathForRoot m (setLast path nd)
      match growLoop m1 fuel with
      | (.ok _, m2) => (.ok (), { m2 with size := m2.size + 1 })
      | (.err e, m2) => (.err e, m2)
      | (.panic, m2) => (.panic, m2)

/-- `Insert` from `pub.go` (lines 214-319): find the target node; if the key is
already present, either do nothing (identical value) or replace the value
copy-on-write; otherwise splice in the new entry via `insertAdd`.  A find that stops
at the wrong layer is the source's `panic("dunno why we didn't land in the right
layer")`. -/
def Mast.Insert (m : Mast) (k : K) (v : V) (fuel : Nat) : Res Unit × Mast :=
  match insertPrep m k fuel with
  | .err e => (.err e, m)
  | .panic => (.panic, m)
  | .ok (node, i, finalH, path, target) =>
    if target ≠ finalH then (.panic, m)
    else
      if i < node.Key.length then
        match m.keyOrder (node.Key.getD i 0) k with
        | .error e => (.err (.ctx "keyCompare" e), m)
        | .ok c =>
          if c = 0 then
            if node.Value.getD i none = v then (.ok (), m)
            else
              (.ok (), savePathForRoot m
                (setLast path ⟨node.Key, node.Value.set i v, node.Link⟩))
          else insertAdd m node i path k v fuel
      else insertAdd m node i path k v fuel

/-- `Delete` from `pub.go` (lines 61-132): reject a nil root; find the key at its
effective layer; report `notFound` on a layer mismatch, an off-the-end index or a key
mismatch and `valueMismatch` when the stored value differs; otherwise splice the entry
out, merge the two flanking children into the gap, write the path back, decrement the
size and run the shrink loop. -/
def Mast.Delete (m : Mast) (k : K) (v : V) (fuel : Nat) : Res Unit × Mast :=
  match m.root with
  | Lnk.nil => (.err (.notFound k), m)
  | rl =>
    match mload m rl with
    | .err e => (.err (.ctx "load root" e), m)
    | .panic => (.panic, m)
    | .ok rootNode =>
      match m.keyLayer k m.branchFactor with
      | .error e => (.err (.ctx "layer" e), m)
      | .ok kl =>
        match findNode m fuel rootNode k (uint8min kl m.height) m.height false [] with
        | .err e => (.err (.ctx "findNode" e), m)
        | .panic => (.panic, m)
        | .ok (node, i, finalH, path) =>
          if uint8min kl m.height ≠ finalH ∨ i = node.Key.length then
            (.err (.notFound k), m)
          else
            match m.keyOrder (node.Key.getD i 0) k with
            | .error e => (.err (.ctx "keyCompare" e), m)
            | .ok c =>
              if c ≠ 0 then (.err (.notFound k), m)
              else if node.Value.getD i none ≠ v then
                (.err (.valueMismatch (node.Value.getD i none) v), m)
              else
                match node.Link[i]?, node.Link[i + 1]? with
                | some li, some li1 =>
                  match mergeNodes m fuel li li1 with
                  | .err e => (.err (.ctx "merge" e), m)
                  | .panic => (.panic, m)
                  | .ok mg =>
                    let nd : mastNode := ⟨node.Key.take i ++ node.Key.drop (i + 1),
                                          node.Value.take i ++ node.Value.drop (i + 1),
                                          (node.Link.take i ++ node.Link.drop (i + 1)).set i mg⟩
                    let m1 := savePathForRoot m (setLast path nd)
                    shrinkLoop { m1 with size := m1.size - 1 } fuel
                | _, _ => (.panic, m)

/-- Modelled from the spec (§4.7 Flush): serialize the subtree of each link
bottom-up — a nil link serializes as the empty string, a content hash as itself, an
inline node by first storing its children, then marshalling and storing its bytes
under their content hash.  The fuel bounds the recursion both into children and along
the sibling list. -/
def storeList (m : Mast) (p : PersistM) : Nat → List Lnk → Res (List String)
  | 0, _ => .err .outOfFuel
  | _ + 1, [] => .ok []
  | fuel + 1, l :: rest =>
    match (match l with
           | Lnk.nil => Res.ok ""
           | Lnk.hash id => Res.ok id
           | Lnk.node ks vs ls =>
             match storeList m p fuel ls with
             | .err e => Res.err e
             | .panic => Res.panic
             | .ok ids =>
               match m.marshalNode ks vs ids with
               | .error e => Res.err (.ctx "marshal" e)
               | .ok bytes =>
                 match p.storeFn (p.hashFn bytes) bytes with
                 | .error e => Res.err (.ctx "store" e)
                 | .ok _ => Res.ok (p.hashFn bytes)) with
    | .err e => .err e
    | .panic => .panic
    | .ok s =>
      match storeList m p fuel rest with
      | .err e => .err e
      | .panic => .panic
      | .ok ss => .ok (s :: ss)

/-- Modelled from the spec (§4.7 Flush): `node.store` — store the children, marshal
the node with the resulting ids, store the bytes under their content hash and return
the hash. -/
def storeNode (m : Mast) (p : PersistM) (fuel : Nat) (n : mastNode) : Res String :=
  match storeList m p fuel n.Link with
  | .err e => .err e
  | .panic => .panic
  | .ok ids =>
    match m.marshalNode n.Key n.Value ids with
    | .error e => .err (.ctx "marshal" e)
    | .ok bytes =>
      match p.storeFn (p.hashFn bytes) bytes with
      | .error e => .err (.ctx "store" e)
      | .ok _ => .ok (p.hashFn bytes)

/-- `flush` from `pub.go` (lines 153-167): require a persist mechanism, load the root,
store it (with its dirty subtree), and replace the in-memory root by the returned
content hash. -/
def Mast.flush (m : Mast) (fuel : Nat) : Res String × Mast :=
  match m.persist with
  | none => (.err .noPersist, m)
  | some p =>
    match mload m m.root with
    | .err e => (.err (.ctx "load root" e), m)
    | .panic => (.panic, m)
    | .ok n =>
      match storeNode m p fuel n with
      | .err e => (.err e, m)
      | .panic => (.panic, m)
      | .ok s => (.ok s, { m with root := Lnk.hash s })

/-- `MakeRoot` from `pub.go` (lines 389-395): flush, then publish
`&Root{&link, m.size, m.height, m.branchFactor}` — the `Link` field is the address of
the local `link` variable and is therefore never a nil pointer. -/
def Mast.MakeRoot (m : Mast) (fuel : Nat) : Res Root × Mast :=
  match m.flush fuel with
  | (.ok s, m') => (.ok ⟨some s, m'.size, m'.height, m'.branchFactor⟩, m')
  | (.err e, m') => (.err (.ctx "flush" e), m')
  | (.panic, m') => (.panic, m')

/-- Modelled from the spec (§4.1): the default key order compares canonical serialized
forms; over the model's `Nat` keys this is the numeric order. -/
def defaultOrder : K → K → Except Err Int :=
  fun a b => .ok (if a < b then -1 else if b < a then 1 else 0)

/-- Modelled from the spec (§4.1): the digest of the serialized key.  The real
implementation hashes with SHA-256, an external pure function; the model uses the key
itself as stand-in digest (no claim depends on particular layer values). -/
def hashK (k : K) : Nat := k

/-- Count the trailing zero digits of `n` in base `bf` (at most `fuel` of them). -/
def trailingZeros (bf : Nat) : Nat → Nat → Nat
  | 0, _ => 0
  | fuel + 1, n =>
    if 2 ≤ bf ∧ n ≠ 0 ∧ n % bf = 0 then trailingZeros bf fuel (n / bf) + 1 else 0

/-- Modelled from the spec (§4.1): the default layer function — the number of trailing
zero digits of the key's digest written in base `branchFactor`. -/
def defaultLayer (k : K) (bf : Nat) : Except Err Nat := .ok (trailingZeros bf 64 (hashK k))

/-- The decoding configuration accepted by `LoadMast` (source type `RemoteConfig`):
`zeroValue` models `ValuesLike != nil`, and the codec fields model the
`Marshal`/`Unmarshal` pair specialized to node, key and value targets. -/
structure RemoteConfig where
  zeroValue : Bool
  persist : Option PersistM
  unmarshalNode : Bytes → Except Err stringNodeT
  unmarshalKey : Bytes → Except Err K
  unmarshalVal : Bytes → Except Err V
  marshalNode : List K → List V → List String → Except Err Bytes

/-- `LoadMast` from `pub.go` (lines 347-385): a nil `r.Link` maps to an empty
in-memory root node; `shrinkBelowSize` is computed by multiplying `uint64(1)` by the
branch factor `r.Height` times in `uint64` arithmetic (hence the `% 2^64` at every
step) and `growAfterSize` by one more multiplication; the source does **not** copy
`r.Size` into the tree (`size` keeps its Go zero value).  `checkRoot` (modelled from
the spec §4.7: the root must load) is run before the tree is returned. -/
def Root.LoadMast (r : Root) (config : RemoteConfig) : Res Mast :=
  let lnk : Lnk := match r.Link with
    | some s => Lnk.hash s
    | none => emptyNodePointer r.BranchFactor
  let shrinkSize := (List.range r.Height).foldl (fun acc _ => acc * r.BranchFactor % u64) 1
  let m : Mast := { root := lnk
                    zeroValue := config.zeroValue
                    keyOrder := defaultOrder
                    keyLayer := defaultLayer
                    branchFactor := r.BranchFactor
                    height := r.Height
                    size := 0
                    growAfterSize := shrinkSize * r.BranchFactor % u64
                    shrinkBelowSize := shrinkSize
                    persist := config.persist
                    unmarshalNode := config.unmarshalNode
                    unmarshalKey := config.unmarshalKey
                    unmarshalVal := config.unmarshalVal
                    marshalNode := config.marshalNode }
  match mload m m.root with
  | .err e => .err (.ctx "checkRoot" e)
  | .panic => .panic
  | .ok _ => .ok m

/-- `DefaultBranchFactor`: 16 (spec §8, "Let branchFactor = 16"). -/
def DefaultBranchFactor : Nat := 16

/-- `NewRoot` from `pub.go` (lines 413-419): an empty published root — nil `Link`,
size 0, height 0, and the requested (or default) branch factor. -/
def NewRoot (branchFactor : Option Nat) : Root :=
  ⟨none, 0, 0, match branchFactor with
               | some bf => if 0 < bf then bf else DefaultBranchFactor
               | none => DefaultBranchFactor⟩

/-- `Size` from `pub.go` (line 422). -/
def Mast.Size (m : Mast) : Nat := m.size

/-! ### Concrete instances used by witnesses and counterexamples -/

/-- A codec stub for scenarios that never deserialize nodes. -/
def noCodec : Bytes → Except Err stringNodeT := fun _ => .error (.external "unused")

/-- A key-codec stub for scenarios that never deserialize keys. -/
def noKey : Bytes → Except Err K := fun _ => .error (.external "unused")

/-- A value-codec stub for scenarios that never deserialize values. -/
def noVal : Bytes → Except Err V := fun _ => .error (.external "unused")

/-- A marshal stub for scenarios that never serialize nodes. -/
def noMarshal : List K → List V → List String → Except Err Bytes :=
  fun _ _ _ => .error (.external "unused")

/-- A layer function putting every key at layer 0. -/
def layer0 : K → Nat → Except Err Nat := fun _ _ => .ok 0

/-- A layer function putting the listed keys at layer 1 and all others at layer 0. -/
def layerHi (hi : List K) : K → Nat → Except Err Nat :=
  fun k _ => .ok (if k ∈ hi then 1 else 0)

/-- A fresh in-memory tree with the default branch factor (the fields `NewInMemory`
sets, with the modelled default order and an all-zero layer function). -/
def baseMast : Mast := { root := emptyNodePointer 16
                         zeroValue := true
                         keyOrder := defaultOrder
                         keyLayer := layer0
                         branchFactor := 16
                         height := 0
                         size := 0
                         growAfterSize := 16
                         shrinkBelowSize := 1
                         persist := none
                         unmarshalNode := noCodec
                         unmarshalKey := noKey
                         unmarshalVal := noVal
                         marshalNode := noMarshal }

/-- A persist store whose every load fails (e.g. the blob was never written). -/
def pMissing : PersistM :=
  ⟨fun _ => .error (.external "missing"), fun _ _ => .ok (), fun _ => "h"⟩

/-- A height-1 tree of announced size 4 whose root holds the layer-1 entries
`(10, 1)` and `(20, 2)` and whose rightmost child is a content-hash link that the
persist store cannot load. -/
def m1 : Mast := { baseMast with
                   root := Lnk.node [10, 20] [some 1, some 2] [Lnk.nil, Lnk.nil, Lnk.hash "X"]
                   size := 4
                   height := 1
                   branchFactor := 4
                   shrinkBelowSize := 4
                   keyLayer := layerHi [10, 20]
                   persist := some pMissing }

/-- A height-0 tree one entry short of its grow threshold, about to receive a
layer-1 key. -/
def m4 : Mast := { baseMast with
                   root := Lnk.node [10] [some 1] [Lnk.nil, Lnk.nil]
                   size := 1
                   branchFactor := 2
                   growAfterSize := 2
                   keyLayer := layerHi [20] }

/-- A persist store that accepts every write and hashes every content to `"h0"`. -/
def pOK : PersistM := ⟨fun _ => .error (.external "empty"), fun _ _ => .ok (), fun _ => "h0"⟩

/-- An empty in-memory tree with a persist store configured (the S1 scenario of the
spec: `NewInMemory()` after setting `Persist`). -/
def m5 : Mast := { baseMast with persist := some pOK, marshalNode := fun _ _ _ => .ok [7] }

/-- A decoding configuration with no persist store and unused codecs. -/
def cfg0 : RemoteConfig := ⟨true, none, noCodec, noKey, noVal, noMarshal⟩

/-- A root handle of height 16 and branch factor 16, whose `uint64` threshold
computation overflows exactly (`16^16 = 2^64`). -/
def r16 : Root := ⟨none, 0, 16, 16⟩

/-- A one-entry tree whose stored value is a Go `nil`. -/
def m9 : Mast := { baseMast with root := Lnk.node [5] [none] [Lnk.nil, Lnk.nil], size := 1 }

/-- A one-entry tree holding `(5, 7)`. -/
def m3 : Mast := { baseMast with root := Lnk.node [5] [some 7] [Lnk.nil, Lnk.nil], size := 1 }

/-- A persist store serving five named blobs. -/
def pm8 : PersistM :=
  ⟨fun id => if id = "A" then .ok [1] else if id = "B" then .ok [2]
             else if id = "C" then .ok [3] else if id = "D" then .ok [4]
             else if id = "E" then .ok [5] else .error (.external "missing"),
   fun _ _ => .ok (), fun _ => "h"⟩

/-- A tree wired to `pm8` with a codec that decodes blob `[n]` as key `n` / value `n`,
fails on `[9]`, and returns five serialized nodes: `"A"` has mismatched key/value
lengths, `"B"` an unparseable key blob, `"C"` a `Link` array `["", "x"]`, `"D"` an
omitted `Link` array, and `"E"` an unparseable value blob. -/
def m8 : Mast := { baseMast with
                   persist := some pm8
                   unmarshalNode := fun bs =>
                     if bs = [1] then .ok ⟨[[1], [2]], [[1]], none⟩
                     else if bs = [2] then .ok ⟨[[9]], [[1]], none⟩
                     else if bs = [3] then .ok ⟨[[1]], [[1]], some ["", "x"]⟩
                     else if bs = [4] then .ok ⟨[[1]], [[1]], none⟩
                     else if bs = [5] then .ok ⟨[[1]], [[9]], none⟩
                     else .error (.external "bad")
                   unmarshalKey := fun bs => match bs with
                     | [9] => .error (.external "badkey")
                     | [n] => .ok n
                     | _ => .error (.external "bad")
                   unmarshalVal := fun bs => match bs with
                     | [9] => .error (.external "badval")
                     | [n] => .ok (some (Int.ofNat n))
                     | _ => .error (.external "bad") }

/-- A tree whose persist store serves a serialized node with no entries but a
two-element `Link` array — one more link than `len(Key) + 1`. -/
def m10 : Mast := { baseMast with
                    persist := some pm8
                    unmarshalNode := fun _ => .ok ⟨[], [], some ["", ""]⟩ }

/-- A tree whose root is a content-hash link that the persist store cannot load. -/
def mLoadFail : Mast := { baseMast with root := Lnk.hash "Z", persist := some pMissing }

/-- A tree with a literally nil root link. -/
def mNilRoot : Mast := { baseMast with root := Lnk.nil }

/-- The grow/shrink thresholds `LoadMast` computes for a root handle, when loading
succeeds. -/
def loadedThresholds (r : Root) (cfg : RemoteConfig) : Option (Nat × Nat) :=
  match r.LoadMast cfg with
  | .ok m => some (m.shrinkBelowSize, m.growAfterSize)
  | _ => none

/-- The tree `LoadMast` produces for the handle `r16` under `cfg0`. -/
def m16 : Mast := { root := emptyNodePointer 16
                    zeroValue := true
                    keyOrder := defaultOrder
                    keyLayer := defaultLayer
                    branchFactor := 16
                    height := 16
                    size := 0
                    growAfterSize := 0
                    shrinkBelowSize := 0
                    persist := none
                    unmarshalNode := noCodec
                    unmarshalKey := noKey
                    unmarshalVal := noVal
                    marshalNode := noMarshal }

/-- The node `Delete` builds after splicing out entry `i` and merging the two
flanking children into the gap (`pub.go` lines 101-117, written as one expression). -/
def deleteSplice (node : mastNode) (i : Nat) (mg : Lnk) : mastNode :=
  ⟨node.Key.take i ++ node.Key.drop (i + 1),
   node.Value.take i ++ node.Value.drop (i + 1),
   (node.Link.take i ++ node.Link.drop (i + 1)).set i mg⟩

/-! ### Helper lemmas -/

theorem savePathForRoot_size (m : Mast) (p : List (mastNode × Nat)) :
    (savePathForRoot m p).size = m.size := by
  unfold savePathForRoot
  cases h : p.getLast? with
  | none => rfl
  | some x => cases x; rfl

theorem savePathForRoot_growAfterSize (m : Mast) (p : List (mastNode × Nat)) :
    (savePathForRoot m p).growAfterSize = m.growAfterSize := by
  unfold savePathForRoot
  cases h : p.getLast? with
  | none => rfl
  | some x => cases x; rfl

theorem savePathForRoot_shrinkBelowSize (m : Mast) (p : List (mastNode × Nat)) :
    (savePathForRoot m p).shrinkBelowSize = m.shrinkBelowSize := by
  unfold savePathForRoot
  cases h : p.getLast? with
  | none => rfl
  | some x => cases x; rfl

theorem savePathForRoot_height (m : Mast) (p : List (mastNode × Nat)) :
    (savePathForRoot m p).height = m.height := by
  unfold savePathForRoot
  cases h : p.getLast? with
  | none => rfl
  | some x => cases x; rfl

theorem grow_size (m : Mast) (fuel : Nat) : (grow m fuel).2.size = m.size := by
  unfold grow
  split
  · rfl
  · rfl
  · split <;> rfl

theorem shrink_size (m : Mast) (fuel : Nat) : (shrink m fuel).2.size = m.size := by
  unfold shrink
  split
  · rfl
  · split
    · rfl
    · rfl
    · split
      · rfl
      · split <;> rfl

theorem growLoop_ok_size (fuel : Nat) :
    ∀ (m m' : Mast), growLoop m fuel = (.ok (), m') → m'.size = m.size := by
  induction fuel with
  | zero => intro m m' h; simp [growLoop] at h
  | succ fuel ih =>
    intro m m' h
    unfold growLoop at h
    split at h
    · split at h
      · simp at h
      · simp at h
      · split at h
        · simp at h
        · simp only [Prod.mk.injEq] at h
          rw [← h.2]
        · split at h
          · next mg heq =>
            have h1 := ih _ _ h
            have h2 : mg.size = m.size := by
              have h3 := grow_size m fuel
              rw [heq] at h3
              exact h3
            omega
          · simp at h
          · simp at h
    · simp only [Prod.mk.injEq] at h
      rw [← h.2]

theorem shrinkLoop_ok_size (fuel : Nat) :
    ∀ (m m' : Mast), shrinkLoop m fuel = (.ok (), m') → m'.size = m.size := by
  induction fuel with
  | zero => intro m m' h; simp [shrinkLoop] at h
  | succ fuel ih =>
    intro m m' h
    unfold shrinkLoop at h
    split at h
    · split at h
      · next ms heq =>
        have h1 := ih _ _ h
        have h2 : ms.size = m.size := by
          have h3 := shrink_size m fuel
          rw [heq] at h3
          exact h3
        omega
      · simp at h
      · simp at h
    · simp only [Prod.mk.injEq] at h
      rw [← h.2]

theorem foldl_mul_mod (bf : Nat) :
    ∀ h : Nat, (List.range h).foldl (fun acc _ => acc * bf % u64) 1 = bf ^ h % u64 := by
  intro h
  induction h with
  | zero => simp [u64]
  | succ h ih =>
    rw [List.range_succ, List.foldl_append, ih]
    simp only [List.foldl_cons, List.foldl_nil]
    rw [Nat.mod_mul_mod, pow_succ]

/-! ### Claim theorems -/

/-- C6: for every tree and key `k` not present in the tree — a literally nil root, a
descent that ends off the end of the node or at the wrong layer (which covers the
empty tree), or a key mismatch at the found slot — `Get(k, ptr)` returns
`(false, nil)`: absence is signalled by the boolean result, not by a non-nil
error. -/
theorem C6_get_absent_returns_false_nil :
    (∀ (m : Mast) (k : K) (w : Bool) (fuel : Nat), m.root = Lnk.nil →
       m.Get k w fuel = .ok (false, none)) ∧
    (∀ (m : Mast) (k : K) (w : Bool) (fuel : Nat) (rn : mastNode) (kl : Nat)
       (node : mastNode) (i finalH : Nat) (path : List (mastNode × Nat)),
       mload m m.root = .ok rn →
       m.keyLayer k m.branchFactor = .ok kl →
       findNode m fuel rn k (uint8min kl m.height) m.height false [] =
         .ok (node, i, finalH, path) →
       node.Key.length ≤ i ∨ uint8min kl m.height ≠ finalH →
       m.Get k w fuel = .ok (false, none)) ∧
    (∀ (m : Mast) (k : K) (w : Bool) (fuel : Nat) (rn : mastNode) (kl : Nat)
       (node : mastNode) (i finalH : Nat) (path : List (mastNode × Nat)) (c : Int),
       mload m m.root = .ok rn →
       m.keyLayer k m.branchFactor = .ok kl →
       findNode m fuel rn k (uint8min kl m.height) m.height false [] =
         .ok (node, i, finalH, path) →
       uint8min kl m.height = finalH → i < node.Key.length →
       m.keyOrder (node.Key.getD i 0) k = .ok c → c ≠ 0 →
       m.Get k w fuel = .ok (false, none)) := by
  refine ⟨?_, ?_, ?_⟩
  · intro m k w fuel h
    unfold Mast.Get
    rw [h]
  · intro m k w fuel rn kl node i finalH path hload hlayer hfind hcond
    cases hr : m.root with
    | nil => unfold Mast.Get; rw [hr]
    | hash id =>
      rw [hr] at hload
      unfold Mast.Get
      rw [hr]
      simp only [hload, hlayer, hfind]
      rw [if_pos hcond]
    | node ks vs ls =>
      rw [hr] at hload
      unfold Mast.Get
      rw [hr]
      simp only [hload, hlayer, hfind]
      rw [if_pos hcond]
  · intro m k w fuel rn kl node i finalH path c hload hlayer hfind heq hin horder hc
    have hnot : ¬(node.Key.length ≤ i ∨ uint8min kl m.height ≠ finalH) := by
      push_neg
      exact ⟨hin, heq⟩
    cases hr : m.root with
    | nil =>
      rw [hr] at hload
      simp [mload] at hload
    | hash id =>
      rw [hr] at hload
      unfold Mast.Get
      rw [hr]
      simp only [hload, hlayer, hfind]
      rw [if_neg hnot]
      simp only [horder]
      rw [if_pos hc]
    | node ks vs ls =>
      rw [hr] at hload
      unfold Mast.Get
      rw [hr]
      simp only [hload, hlayer, hfind]
      rw [if_neg hnot]
      simp only [horder]
      rw [if_pos hc]

/-- Witness for C6 at concrete inputs: the empty in-memory tree (descent ends off the
end of the empty root node) and a tree with a literally nil root. -/
theorem C6_witness :
    baseMast.Get 5 true 3 = .ok (false, none) ∧
    mNilRoot.Get 7 false 2 = .ok (false, none) :=
  ⟨C6_get_absent_returns_false_nil.2.1 baseMast 5 true 3 ⟨[], [], [Lnk.nil]⟩ 0
     ⟨[], [], [Lnk.nil]⟩ 0 0 [(⟨[], [], [Lnk.nil]⟩, 0)] rfl rfl rfl (Or.inl (by decide)),
   C6_get_absent_returns_false_nil.1 mNilRoot 7 false 2 rfl⟩

/-- C9: when the tree stores key `k` with a Go-nil value and `Get(k, ptr)` is called
with a non-nil value pointer, it returns `(true, nil-error)` and performs no write
through the pointer (second component `none`), rather than returning an error. -/
theorem C9_get_nil_value_silent :
    ∀ (m : Mast) (k : K) (fuel : Nat) (rn node : mastNode) (kl i finalH : Nat)
      (path : List (mastNode × Nat)),
      mload m m.root = .ok rn →
      m.keyLayer k m.branchFactor = .ok kl →
      findNode m fuel rn k (uint8min kl m.height) m.height false [] =
        .ok (node, i, finalH, path) →
      uint8min kl m.height = finalH → i < node.Key.length →
      m.keyOrder (node.Key.getD i 0) k = .ok 0 →
      node.Value.getD i none = none →
      m.Get k true fuel = .ok (true, none) := by
  intro m k fuel rn node kl i finalH path hload hlayer hfind heq hin horder hval
  have hnot : ¬(node.Key.length ≤ i ∨ uint8min kl m.height ≠ finalH) := by
    push_neg
    exact ⟨hin, heq⟩
  cases hr : m.root with
  | nil =>
    rw [hr] at hload
    simp [mload] at hload
  | hash id =>
    rw [hr] at hload
    unfold Mast.Get
    rw [hr]
    simp only [hload, hlayer, hfind]
    rw [if_neg hnot]
    simp only [horder]
    rw [if_neg (by simp : ¬((0 : Int) ≠ 0))]
    simp only [hval]
    simp
  | node ks vs ls =>
    rw [hr] at hload
    unfold Mast.Get
    rw [hr]
    simp only [hload, hlayer, hfind]
    rw [if_neg hnot]
    simp only [horder]
    rw [if_neg (by simp : ¬((0 : Int) ≠ 0))]
    simp only [hval]
    simp

/-- Witness for C9 at a concrete one-entry tree whose stored value is a Go nil. -/
theorem C9_witness : m9.Get 5 true 3 = .ok (true, none) :=
  C9_get_nil_value_silent m9 5 3 ⟨[5], [none], [Lnk.nil, Lnk.nil]⟩
    ⟨[5], [none], [Lnk.nil, Lnk.nil]⟩ 0 0 0 [(⟨[5], [none], [Lnk.nil, Lnk.nil]⟩, 0)]
    rfl rfl rfl rfl (by decide) rfl rfl

/-- C7 counterexample: for the handle with `BranchFactor = 16` and `Height = 16`,
`LoadMast` succeeds but computes `shrinkBelowSize = growAfterSize = 0` because the
`uint64` multiplication loop wraps (`16^16 = 2^64`), while the exact powers
`16^16` and `16^17` are nonzero — so the thresholds are not the exact powers the
claim states. -/
theorem C7_counterexample :
    loadedThresholds r16 cfg0 = some (0, 0) ∧
    r16.BranchFactor ^ r16.Height ≠ 0 ∧ r16.BranchFactor ^ (r16.Height + 1) ≠ 0 := by
  refine ⟨rfl, ?_, ?_⟩ <;> decide

/-- C7 amended: `LoadMast` computes `shrinkBelowSize = BranchFactor ^ Height mod 2^64`
and `growAfterSize = BranchFactor ^ (Height + 1) mod 2^64` (Go `uint64` arithmetic,
equal to the exact powers whenever they fit in 64 bits), and maps a nil `r.Link` to
an empty in-memory root node. -/
theorem C7_loadmast_thresholds :
    ∀ (r : Root) (cfg : RemoteConfig) (m : Mast), r.LoadMast cfg = .ok m →
      m.shrinkBelowSize = r.BranchFactor ^ r.Height % u64 ∧
      m.growAfterSize = r.BranchFactor ^ (r.Height + 1) % u64 ∧
      (r.Link = none → m.root = emptyNodePointer r.BranchFactor) := by
  intro r cfg m h
  simp only [Root.LoadMast] at h
  split at h
  · simp at h
  · simp at h
  · simp only [Res.ok.injEq] at h
    subst h
    refine ⟨?_, ?_, ?_⟩
    · exact foldl_mul_mod r.BranchFactor r.Height
    · rw [foldl_mul_mod r.BranchFactor r.Height, Nat.mod_mul_mod, pow_succ]
    · intro hnil
      rw [hnil]

/-- Witness for C7 at the concrete overflowing handle `r16`. -/
theorem C7_witness :
    m16.shrinkBelowSize = r16.BranchFactor ^ r16.Height % u64 ∧
    m16.growAfterSize = r16.BranchFactor ^ (r16.Height + 1) % u64 ∧
    (r16.Link = none → m16.root = emptyNodePointer r16.BranchFactor) :=
  C7_loadmast_thresholds r16 cfg0 m16 rfl

/-- C10: `contentHash.Load` is not total — when the decoded `Link` array is longer
than the decoded `Key` array plus one, the copy loop indexes the preallocated
`len(Key)+1` link array out of bounds and panics instead of returning an error: for
the blob decoding to a node with no entries and a two-element `Link` array, loading
panics. -/
theorem C10_load_panics_on_long_link_array :
    m10.unmarshalNode [1] = .ok ⟨[], [], some ["", ""]⟩ ∧
    contentHash.Load m10 "A" = .panic :=
  ⟨rfl, rfl⟩

theorem flush_size (m : Mast) (fuel : Nat) : (m.flush fuel).2.size = m.size := by
  unfold Mast.flush
  split
  · rfl
  · split
    · rfl
    · rfl
    · split <;> rfl

/-- C5 counterexample: on the empty tree `m5` (size 0, height 0, persist configured)
`MakeRoot` succeeds and returns a handle whose `Link` holds the stored root id
`"h0"` — in the Go source the field is `&link`, the address of a local string, so it
is never a nil pointer, contradicting the claimed `Link = nil`. -/
theorem C5_counterexample :
    m5.size = 0 ∧ m5.height = 0 ∧
    (m5.MakeRoot 9).1 = .ok ⟨some "h0", 0, 0, 16⟩ ∧
    (some "h0" : Option String) ≠ none := by
  refine ⟨rfl, rfl, rfl, by simp⟩

/-- C5 amended: `MakeRoot` on an empty tree (size 0, persist configured, so the flush
succeeds) returns a handle with `Size = 0`, the tree's height and branch factor, and a
**non-nil** `Link` holding the flushed root's content id; the nil-`Link`
representation of the empty tree is produced by `NewRoot`, not by `MakeRoot`. -/
theorem C5_makeroot_empty :
    (∀ (m : Mast) (fuel : Nat) (r : Root) (m' : Mast),
       m.size = 0 → m.MakeRoot fuel = (.ok r, m') →
       r.Size = 0 ∧ r.Height = m.height ∧ r.BranchFactor = m.branchFactor ∧
       r.Link ≠ none) ∧
    (∀ bf : Option Nat,
       (NewRoot bf).Link = none ∧ (NewRoot bf).Size = 0 ∧ (NewRoot bf).Height = 0) := by
  constructor
  · intro m fuel r m' hsz h
    unfold Mast.MakeRoot at h
    split at h
    · next s mf heq =>
      have hfs : mf.size = m.size := by
        have := flush_size m fuel
        rw [heq] at this
        exact this
      have hfh : mf.height = m.height := by
        have : (m.flush fuel).2.height = m.height := by
          unfold Mast.flush
          split
          · rfl
          · split
            · rfl
            · rfl
            · split <;> rfl
        rw [heq] at this
        exact this
      have hfb : mf.branchFactor = m.branchFactor := by
        have : (m.flush fuel).2.branchFactor = m.branchFactor := by
          unfold Mast.flush
          split
          · rfl
          · split
            · rfl
            · rfl
            · split <;> rfl
        rw [heq] at this
        exact this
      simp only [Prod.mk.injEq, Res.ok.injEq] at h
      rw [← h.1]
      refine ⟨by rw [hfs, hsz], by rw [hfh], by rw [hfb], by simp⟩
    · simp at h
    · simp at h
  · intro bf
    cases bf with
    | none => exact ⟨rfl, rfl, rfl⟩
    | some b => exact ⟨rfl, rfl, rfl⟩

/-- Witness for C5 at the concrete empty persisted tree `m5`. -/
theorem C5_witness :
    (⟨some "h0", 0, 0, 16⟩ : Root).Size = 0 ∧
    (⟨some "h0", 0, 0, 16⟩ : Root).Height = m5.height ∧
    (⟨some "h0", 0, 0, 16⟩ : Root).BranchFactor = m5.branchFactor ∧
    (⟨some "h0", 0, 0, 16⟩ : Root).Link ≠ none :=
  C5_makeroot_empty.1 m5 9 ⟨some "h0", 0, 0, 16⟩ { m5 with root := Lnk.hash "h0" } rfl rfl

/-- C1 counterexample: on the tree `m1`, `Delete 20 2` finds and splices out the
entry, writes the new path back, decrements the size from 4 to 3, and only then fails
inside the shrink loop (the child blob `"X"` cannot be loaded).  The call returns an
error, yet the observable size after the call is 3, not the pre-call 4 — a partial
mutation is observable on error. -/
theorem C1_counterexample :
    (m1.Delete 20 (some 2) 9).1 =
      .err (.ctx "shrink" (.loadFailed "X" (.external "missing"))) ∧
    (m1.Delete 20 (some 2) 9).2.size = 3 ∧ m1.size = 4 ∧ (3 : Nat) ≠ 4 :=
  ⟨rfl, rfl, rfl, by decide⟩

/-- C1 amended: failures detected **before** the path write-back leave the tree
exactly in its pre-call state — `Insert` failing in its find stage, `Delete` failing
in its merge stage, and `flush`/`MakeRoot` failing anywhere return the unchanged
tree; but failures in the post-write-back grow/shrink maintenance (see the
counterexample) leave the already-applied mutation observable. -/
theorem C1_pre_writeback_failures_unchanged :
    (∀ (m : Mast) (k : K) (v : V) (fuel : Nat) (e : Err),
       insertPrep m k fuel = .err e → m.Insert k v fuel = (.err e, m)) ∧
    (∀ (m : Mast) (k : K) (v : V) (fuel : Nat) (rn : mastNode) (kl : Nat)
       (node : mastNode) (i finalH : Nat) (path : List (mastNode × Nat))
       (li li1 : Lnk) (e : Err),
       mload m m.root = .ok rn →
       m.keyLayer k m.branchFactor = .ok kl →
       findNode m fuel rn k (uint8min kl m.height) m.height false [] =
         .ok (node, i, finalH, path) →
       uint8min kl m.height = finalH → i ≠ node.Key.length →
       m.keyOrder (node.Key.getD i 0) k = .ok 0 →
       node.Value.getD i none = v →
       node.Link[i]? = some li → node.Link[i + 1]? = some li1 →
       mergeNodes m fuel li li1 = .err e →
       m.Delete k v fuel = (.err (.ctx "merge" e), m)) ∧
    (∀ (m : Mast) (fuel : Nat) (e : Err) (m' : Mast),
       m.flush fuel = (.err e, m') → m' = m) ∧
    (∀ (m : Mast) (fuel : Nat) (e : Err) (m' : Mast),
       m.MakeRoot fuel = (.err e, m') → m' = m) := by
  have hflush : ∀ (m : Mast) (fuel : Nat) (e : Err) (m' : Mast),
      m.flush fuel = (.err e, m') → m' = m := by
    intro m fuel e m' h
    unfold Mast.flush at h
    split at h
    · simp only [Prod.mk.injEq] at h
      exact h.2.symm
    · split at h
      · simp only [Prod.mk.injEq] at h
        exact h.2.symm
      · simp at h
      · split at h
        · simp only [Prod.mk.injEq] at h
          exact h.2.symm
        · simp at h
        · simp at h
  refine ⟨?_, ?_, hflush, ?_⟩
  · intro m k v fuel e h
    unfold Mast.Insert
    rw [h]
  · intro m k v fuel rn kl node i finalH path li li1 e
      hload hlayer hfind heq hne horder hval hli hli1 hmerge
    have hnot : ¬(uint8min kl m.height ≠ finalH ∨ i = node.Key.length) := by
      push_neg
      exact ⟨heq, hne⟩
    cases hr : m.root with
    | nil =>
      rw [hr] at hload
      simp [mload] at hload
    | hash id =>
      rw [hr] at hload
      unfold Mast.Delete
      rw [hr]
      simp only [hload, hlayer, hfind]
      rw [if_neg hnot]
      simp only [horder]
      rw [if_neg (by simp : ¬((0 : Int) ≠ 0))]
      rw [if_neg (by rw [hval]; simp : ¬(node.Value.getD i none ≠ v))]
      simp only [hli, hli1, hmerge]
    | node ks vs ls =>
      rw [hr] at hload
      unfold Mast.Delete
      rw [hr]
      simp only [hload, hlayer, hfind]
      rw [if_neg hnot]
      simp only [horder]
      rw [if_neg (by simp : ¬((0 : Int) ≠ 0))]
      rw [if_neg (by rw [hval]; simp : ¬(node.Value.getD i none ≠ v))]
      simp only [hli, hli1, hmerge]
  · intro m fuel e m' h
    unfold Mast.MakeRoot at h
    split at h
    · simp at h
    · next e' mf heq =>
      simp only [Prod.mk.injEq] at h
      rw [← h.2]
      exact hflush m fuel e' mf heq
    · simp at h

/-- Witness for the amended C1 at a concrete tree whose root blob is missing from the
persist store: `Insert` fails in its find stage and returns the unchanged tree. -/
theorem C1_witness :
    mLoadFail.Insert 5 (some 1) 3 =
      (.err (.loadFailed "Z" (.external "missing")), mLoadFail) :=
  C1_pre_writeback_failures_unchanged.1 mLoadFail 5 (some 1) 3
    (.loadFailed "Z" (.external "missing")) rfl

/-- C2: a successful `Insert(k, v)` either leaves the size unchanged (the key
existed: its value is replaced copy-on-write, or the operation is a complete no-op
when the stored value already equals `v`) or adds a new entry and increases the size
by exactly one (the increment happens in the `insertAdd` splice stage). -/
theorem C2_insert_contract :
    (∀ (m : Mast) (k : K) (v : V) (fuel : Nat) (m' : Mast),
       m.Insert k v fuel = (.ok (), m') → m'.size = m.size ∨ m'.size = m.size + 1) ∧
    (∀ (m : Mast) (k : K) (v : V) (fuel : Nat) (node : mastNode)
       (i finalH : Nat) (path : List (mastNode × Nat)) (target : Nat),
       insertPrep m k fuel = .ok (node, i, finalH, path, target) →
       target = finalH → i < node.Key.length →
       m.keyOrder (node.Key.getD i 0) k = .ok 0 →
       node.Value.getD i none = v →
       m.Insert k v fuel = (.ok (), m)) ∧
    (∀ (m : Mast) (k : K) (v : V) (fuel : Nat) (node : mastNode)
       (i finalH : Nat) (path : List (mastNode × Nat)) (target : Nat),
       insertPrep m k fuel = .ok (node, i, finalH, path, target) →
       target = finalH → i < node.Key.length →
       m.keyOrder (node.Key.getD i 0) k = .ok 0 →
       node.Value.getD i none ≠ v →
       m.Insert k v fuel =
         (.ok (), savePathForRoot m
           (setLast path ⟨node.Key, node.Value.set i v, node.Link⟩)) ∧
       (savePathForRoot m
         (setLast path ⟨node.Key, node.Value.set i v, node.Link⟩)).size = m.size) ∧
    (∀ (m : Mast) (node : mastNode) (i : Nat) (path : List (mastNode × Nat))
       (k : K) (v : V) (fuel : Nat) (m' : Mast),
       insertAdd m node i path k v fuel = (.ok (), m') → m'.size = m.size + 1) := by
  have hadd : ∀ (m : Mast) (node : mastNode) (i : Nat) (path : List (mastNode × Nat))
      (k : K) (v : V) (fuel : Nat) (m' : Mast),
      insertAdd m node i path k v fuel = (.ok (), m') → m'.size = m.size + 1 := by
    intro m node i path k v fuel m' h
    simp only [insertAdd] at h
    split at h
    · simp at h
    · split at h
      · simp at h
      · simp at h
      · split at h
        · next u m2 heq =>
          simp only [Prod.mk.injEq] at h
          rw [← h.2]
          have h2 : m2.size = m.size := by
            have h3 := growLoop_ok_size fuel _ m2 (by cases u; exact heq)
            rw [h3, savePathForRoot_size]
          simp only [h2]
        · simp at h
        · simp at h
  refine ⟨?_, ?_, ?_, hadd⟩
  · intro m k v fuel m' h
    unfold Mast.Insert at h
    split at h
    · simp at h
    · simp at h
    · split at h
      · simp at h
      · split at h
        · split at h
          · simp at h
          · split at h
            · split at h
              · simp only [Prod.mk.injEq] at h
                left
                rw [← h.2]
              · simp only [Prod.mk.injEq] at h
                left
                rw [← h.2, savePathForRoot_size]
            · right
              exact hadd _ _ _ _ _ _ _ _ h
        · right
          exact hadd _ _ _ _ _ _ _ _ h
  · intro m k v fuel node i finalH path target hprep htf hin horder hval
    unfold Mast.Insert
    simp only [hprep]
    rw [if_neg (by rw [htf]; simp : ¬(target ≠ finalH))]
    rw [if_pos hin]
    simp only [horder]
    rw [if_pos trivial]
    rw [if_pos hval]
  · intro m k v fuel node i finalH path target hprep htf hin horder hval
    unfold Mast.Insert
    simp only [hprep]
    rw [if_neg (by rw [htf]; simp : ¬(target ≠ finalH))]
    rw [if_pos hin]
    simp only [horder]
    rw [if_pos trivial]
    rw [if_neg hval]
    exact ⟨rfl, savePathForRoot_size m _⟩

/-- Witness for C2 at the concrete one-entry tree `m3` (no-op re-insert, size
dichotomy of a replace) and at the splice stage of the `m4` insertion (size + 1). -/
theorem C2_witness :
    m3.Insert 5 (some 7) 9 = (.ok (), m3) ∧
    ({ m3 with root := Lnk.node [5] [some 8] [Lnk.nil, Lnk.nil] } : Mast).size = m3.size ∨
      ({ m3 with root := Lnk.node [5] [some 8] [Lnk.nil, Lnk.nil] } : Mast).size = m3.size + 1 :=
  Or.inl
    ⟨C2_insert_contract.2.1 m3 5 (some 7) 9 ⟨[5], [some 7], [Lnk.nil, Lnk.nil]⟩ 0 0
       [(⟨[5], [some 7], [Lnk.nil, Lnk.nil]⟩, 0)] 0 rfl rfl (by decide) rfl rfl,
     (C2_insert_contract.1 m3 5 (some 8) 9
        { m3 with root := Lnk.node [5] [some 8] [Lnk.nil, Lnk.nil] } rfl).resolve_right
       (by decide) |>.symm ▸ rfl⟩

/-- C3: `Delete(k, v)` returns the not-found error on a nil root, when the descent
stops at the wrong layer or off the end of the node, and when the key at the found
slot differs — in each case leaving the tree unchanged; it returns the value-mismatch
error, tree unchanged, when the key is present with a different value; when key and
value both match it succeeds (shown here when no shrink is triggered), removing
exactly that entry from the found node; and every successful `Delete` decrements the
size by one. -/
theorem C3_delete_contract :
    (∀ (m : Mast) (k : K) (v : V) (fuel : Nat), m.root = Lnk.nil →
       m.Delete k v fuel = (.err (.notFound k), m)) ∧
    (∀ (m : Mast) (k : K) (v : V) (fuel : Nat) (rn : mastNode) (kl : Nat)
       (node : mastNode) (i finalH : Nat) (path : List (mastNode × Nat)),
       mload m m.root = .ok rn →
       m.keyLayer k m.branchFactor = .ok kl →
       findNode m fuel rn k (uint8min kl m.height) m.height false [] =
         .ok (node, i, finalH, path) →
       uint8min kl m.height ≠ finalH ∨ i = node.Key.length →
       m.Delete k v fuel = (.err (.notFound k), m)) ∧
    (∀ (m : Mast) (k : K) (v : V) (fuel : Nat) (rn : mastNode) (kl : Nat)
       (node : mastNode) (i finalH : Nat) (path : List (mastNode × Nat)) (c : Int),
       mload m m.root = .ok rn →
       m.keyLayer k m.branchFactor = .ok kl →
       findNode m fuel rn k (uint8min kl m.height) m.height false [] =
         .ok (node, i, finalH, path) →
       uint8min kl m.height = finalH → i ≠ node.Key.length →
       m.keyOrder (node.Key.getD i 0) k = .ok c → c ≠ 0 →
       m.Delete k v fuel = (.err (.notFound k), m)) ∧
    (∀ (m : Mast) (k : K) (v : V) (fuel : Nat) (rn : mastNode) (kl : Nat)
       (node : mastNode) (i finalH : Nat) (path : List (mastNode × Nat)),
       mload m m.root = .ok rn →
       m.keyLayer k m.branchFactor = .ok kl →
       findNode m fuel rn k (uint8min kl m.height) m.height false [] =
         .ok (node, i, finalH, path) →
       uint8min kl m.height = finalH → i ≠ node.Key.length →
       m.keyOrder (node.Key.getD i 0) k = .ok 0 →
       node.Value.getD i none ≠ v →
       m.Delete k v fuel =
         (.err (.valueMismatch (node.Value.getD i none) v), m)) ∧
    (∀ (m : Mast) (k : K) (v : V) (fuel : Nat) (rn : mastNode) (kl : Nat)
       (node : mastNode) (i finalH : Nat) (path : List (mastNode × Nat))
       (li li1 mg : Lnk),
       mload m m.root = .ok rn →
       m.keyLayer k m.branchFactor = .ok kl →
       findNode m fuel rn k (uint8min kl m.height) m.height false [] =
         .ok (node, i, finalH, path) →
       uint8min kl m.height = finalH → i ≠ node.Key.length →
       m.keyOrder (node.Key.getD i 0) k = .ok 0 →
       node.Value.getD i none = v →
       node.Link[i]? = some li → node.Link[i + 1]? = some li1 →
       mergeNodes m fuel li li1 = .ok mg →
       ¬(m.size - 1 < m.shrinkBelowSize ∧ 0 < m.height) →
       m.Delete k v fuel =
         (.ok (), { savePathForRoot m (setLast path (deleteSplice node i mg)) with
                    size := (savePathForRoot m
                      (setLast path (deleteSplice node i mg))).size - 1 })) ∧
    (∀ (m : Mast) (k : K) (v : V) (fuel : Nat) (m' : Mast),
       m.Delete k v fuel = (.ok (), m') → m'.size = m.size - 1) := by
  refine ⟨?_, ?_, ?_, ?_, ?_, ?_⟩
  · intro m k v fuel h
    unfold Mast.Delete
    rw [h]
  · intro m k v fuel rn kl node i finalH path hload hlayer hfind hcond
    cases hr : m.root with
    | nil =>
      rw [hr] at hload
      simp [mload] at hload
    | hash id =>
      rw [hr] at hload
      unfold Mast.Delete
      rw [hr]
      simp only [hload, hlayer, hfind]
      rw [if_pos hcond]
    | node ks vs ls =>
      rw [hr] at hload
      unfold Mast.Delete
      rw [hr]
      simp only [hload, hlayer, hfind]
      rw [if_pos hcond]
  · intro m k v fuel rn kl node i finalH path c hload hlayer hfind heq hne horder hc
    have hnot : ¬(uint8min kl m.height ≠ finalH ∨ i = node.Key.length) := by
      push_neg
      exact ⟨heq, hne⟩
    cases hr : m.root with
    | nil =>
      rw [hr] at hload
      simp [mload] at hload
    | hash id =>
      rw [hr] at hload
      unfold Mast.Delete
      rw [hr]
      simp only [hload, hlayer, hfind]
      rw [if_neg hnot]
      simp only [horder]
      rw [if_pos hc]
    | node ks vs ls =>
      rw [hr] at hload
      unfold Mast.Delete
      rw [hr]
      simp only [hload, hlayer, hfind]
      rw [if_neg hnot]
      simp only [horder]
      rw [if_pos hc]
  · intro m k v fuel rn kl node i finalH path hload hlayer hfind heq hne horder hval
    have hnot : ¬(uint8min kl m.height ≠ finalH ∨ i = node.Key.length) := by
      push_neg
      exact ⟨heq, hne⟩
    cases hr : m.root with
    | nil =>
      rw [hr] at hload
      simp [mload] at hload
    | hash id =>
      rw [hr] at hload
      unfold Mast.Delete
      rw [hr]
      simp only [hload, hlayer, hfind]
      rw [if_neg hnot]
      simp only [horder]
      rw [if_neg (by simp : ¬((0 : Int) ≠ 0))]
      rw [if_pos hval]
    | node ks vs ls =>
      rw [hr] at hload
      unfold Mast.Delete
      rw [hr]
      simp only [hload, hlayer, hfind]
      rw [if_neg hnot]
      simp only [horder]
      rw [if_neg (by simp : ¬((0 : Int) ≠ 0))]
      rw [if_pos hval]
  · intro m k v fuel rn kl node i finalH path li li1 mg
      hload hlayer hfind heq hne horder hval hli hli1 hmerge hns
    have hnot : ¬(uint8min kl m.height ≠ finalH ∨ i = node.Key.length) := by
      push_neg
      exact ⟨heq, hne⟩
    cases fuel with
    | zero => simp [findNode] at hfind
    | succ f =>
      have hcond : ¬((savePathForRoot m (setLast path (deleteSplice node i mg))).size - 1 <
            (savePathForRoot m (setLast path (deleteSplice node i mg))).shrinkBelowSize ∧
          0 < (savePathForRoot m (setLast path (deleteSplice node i mg))).height) := by
        rw [savePathForRoot_size, savePathForRoot_shrinkBelowSize, savePathForRoot_height]
        exact hns
      cases hr : m.root with
      | nil =>
        rw [hr] at hload
        simp [mload] at hload
      | hash id =>
        rw [hr] at hload
        unfold Mast.Delete
        rw [hr]
        simp only [hload, hlayer, hfind]
        rw [if_neg hnot]
        simp only [horder]
        rw [if_neg (by simp : ¬((0 : Int) ≠ 0))]
        rw [if_neg (by rw [hval]; simp : ¬(node.Value.getD i none ≠ v))]
        simp only [hli, hli1, hmerge]
        show shrinkLoop _ (f + 1) = _
        unfold shrinkLoop
        split
        · next hcontra =>
          refine absurd ?_ hcond
          simpa [deleteSplice] using hcontra
        · rfl
      | node ks vs ls =>
        rw [hr] at hload
        unfold Mast.Delete
        rw [hr]
        simp only [hload, hlayer, hfind]
        rw [if_neg hnot]
        simp only [horder]
        rw [if_neg (by simp : ¬((0 : Int) ≠ 0))]
        rw [if_neg (by rw [hval]; simp : ¬(node.Value.getD i none ≠ v))]
        simp only [hli, hli1, hmerge]
        show shrinkLoop _ (f + 1) = _
        unfold shrinkLoop
        split
        · next hcontra =>
          refine absurd ?_ hcond
          simpa [deleteSplice] using hcontra
        · rfl
  · intro m k v fuel m' h
    simp only [Mast.Delete] at h
    split at h
    · simp at h
    · split at h
      · simp at h
      · simp at h
      · split at h
        · simp at h
        · split at h
          · simp at h
          · simp at h
          · split at h
            · simp at h
            · split at h
              · simp at h
              · split at h
                · simp at h
                · split at h
                  · simp at h
                  · split at h
                    · split at h
                      · simp at h
                      · simp at h
                      · have hs := shrinkLoop_ok_size fuel _ m' h
                        rw [hs]
                        simp [savePathForRoot_size]
                    · simp at h

/-- Witness for C3 at concrete inputs: delete from a nil-root tree (not found),
delete with the wrong value from the one-entry tree `m3` (value mismatch, tree
unchanged), a successful delete of `(5, 7)` from `m3`, and delete of an absent key
(descent ends off the end of the node). -/
theorem C3_witness :
    mNilRoot.Delete 5 (some 1) 2 = (.err (.notFound 5), mNilRoot) ∧
    m3.Delete 5 (some 8) 9 = (.err (.valueMismatch (some 7) (some 8)), m3) ∧
    m3.Delete 5 (some 7) 9 =
      (.ok (), { savePathForRoot m3 (setLast [(⟨[5], [some 7], [Lnk.nil, Lnk.nil]⟩, 0)]
                   (deleteSplice ⟨[5], [some 7], [Lnk.nil, Lnk.nil]⟩ 0 Lnk.nil)) with
                 size := (savePathForRoot m3 (setLast [(⟨[5], [some 7], [Lnk.nil, Lnk.nil]⟩, 0)]
                   (deleteSplice ⟨[5], [some 7], [Lnk.nil, Lnk.nil]⟩ 0 Lnk.nil))).size - 1 }) ∧
    m3.Delete 9 (some 1) 9 = (.err (.notFound 9), m3) :=
  ⟨C3_delete_contract.1 mNilRoot 5 (some 1) 2 rfl,
   C3_delete_contract.2.2.2.1 m3 5 (some 8) 9 ⟨[5], [some 7], [Lnk.nil, Lnk.nil]⟩ 0
     ⟨[5], [some 7], [Lnk.nil, Lnk.nil]⟩ 0 0 [(⟨[5], [some 7], [Lnk.nil, Lnk.nil]⟩, 0)]
     rfl rfl rfl rfl (by decide) rfl (by decide),
   C3_delete_contract.2.2.2.2.1 m3 5 (some 7) 9 ⟨[5], [some 7], [Lnk.nil, Lnk.nil]⟩ 0
     ⟨[5], [some 7], [Lnk.nil, Lnk.nil]⟩ 0 0 [(⟨[5], [some 7], [Lnk.nil, Lnk.nil]⟩, 0)]
     Lnk.nil Lnk.nil Lnk.nil rfl rfl rfl rfl (by decide) rfl rfl rfl rfl rfl (by decide),
   C3_delete_contract.2.1 m3 9 (some 1) 9 ⟨[5], [some 7], [Lnk.nil, Lnk.nil]⟩ 0
     ⟨[5], [some 7], [Lnk.nil, Lnk.nil]⟩ 1 0 [(⟨[5], [some 7], [Lnk.nil, Lnk.nil]⟩, 1)]
     rfl rfl rfl (Or.inr rfl)⟩

theorem growLoop_exit (fuel : Nat) :
    ∀ (m m' : Mast), growLoop m fuel = (.ok (), m') →
      m'.size < m'.growAfterSize ∨
      ∃ n, mload m' m'.root = .ok n ∧
        canGrow n m'.height m'.keyLayer m'.branchFactor = .ok false := by
  induction fuel with
  | zero => intro m m' h; simp [growLoop] at h
  | succ fuel ih =>
    intro m m' h
    unfold growLoop at h
    split at h
    · split at h
      · simp at h
      · simp at h
      · next n hl =>
        split at h
        · simp at h
        · next hg =>
          simp only [Prod.mk.injEq] at h
          right
          rw [← h.2]
          exact ⟨n, hl, hg⟩
        · split at h
          · exact ih _ _ h
          · simp at h
          · simp at h
    · next hc =>
      simp only [Prod.mk.injEq] at h
      left
      rw [← h.2]
      omega

/-- C4 counterexample: inserting the layer-1 key 20 into `m4` (size 1, grow
threshold 2) succeeds without growing — the loop tests the **pre-increment** size
1 < 2 — and only then increments the size; on return the size equals
`growAfterSize` (2) **and** the root can still grow, contradicting the claimed
post-condition that `size < growAfterSize` or the root cannot grow with size counted
after the increment. -/
theorem C4_counterexample :
    (m4.Insert 20 (some 2) 9).1 = .ok () ∧
    (m4.Insert 20 (some 2) 9).2.size = 2 ∧
    (m4.Insert 20 (some 2) 9).2.growAfterSize = 2 ∧
    (m4.Insert 20 (some 2) 9).2.root =
      Lnk.node [10, 20] [some 1, some 2] [Lnk.nil, Lnk.nil, Lnk.nil] ∧
    (m4.Insert 20 (some 2) 9).2.height = 0 ∧
    canGrow ⟨[10, 20], [some 1, some 2], [Lnk.nil, Lnk.nil, Lnk.nil]⟩ 0
      m4.keyLayer m4.branchFactor = .ok true ∧
    ¬((2 : Nat) < 2) :=
  ⟨rfl, rfl, rfl, rfl, rfl, rfl, by decide⟩

/-- C4 amended: when `Insert` adds a new entry, the grow loop runs **before** the
size increment and its condition uses the pre-increment size: a successful grow loop
exits with `size < growAfterSize` or a current root that cannot grow, and a
successful size-changing `Insert` returns an intermediate state `m₁` with this exit
property whose size is then incremented by one. -/
theorem C4_insert_growloop_before_increment :
    (∀ (fuel : Nat) (m m' : Mast), growLoop m fuel = (.ok (), m') →
       m'.size < m'.growAfterSize ∨
       ∃ n, mload m' m'.root = .ok n ∧
         canGrow n m'.height m'.keyLayer m'.branchFactor = .ok false) ∧
    (∀ (m : Mast) (k : K) (v : V) (fuel : Nat) (m' : Mast),
       m.Insert k v fuel = (.ok (), m') → m'.size ≠ m.size →
       ∃ m₁, m' = { m₁ with size := m₁.size + 1 } ∧
         (m₁.size < m₁.growAfterSize ∨
          ∃ n, mload m₁ m₁.root = .ok n ∧
            canGrow n m₁.height m₁.keyLayer m₁.branchFactor = .ok false)) := by
  constructor
  · exact fun fuel => growLoop_exit fuel
  · have haddx : ∀ (m : Mast) (node : mastNode) (i : Nat) (path : List (mastNode × Nat))
        (k : K) (v : V) (fuel : Nat) (m' : Mast),
        insertAdd m node i path k v fuel = (.ok (), m') →
        ∃ m₁, m' = { m₁ with size := m₁.size + 1 } ∧
          (m₁.size < m₁.growAfterSize ∨
           ∃ n, mload m₁ m₁.root = .ok n ∧
             canGrow n m₁.height m₁.keyLayer m₁.branchFactor = .ok false) := by
      intro m node i path k v fuel m' h
      simp only [insertAdd] at h
      split at h
      · simp at h
      · split at h
        · simp at h
        · simp at h
        · split at h
          · next u m2 heq =>
            simp only [Prod.mk.injEq] at h
            refine ⟨m2, h.2.symm, ?_⟩
            exact growLoop_exit fuel _ m2 (by cases u; exact heq)
          · simp at h
          · simp at h
    intro m k v fuel m' h hsz
    unfold Mast.Insert at h
    split at h
    · simp at h
    · simp at h
    · split at h
      · simp at h
      · split at h
        · split at h
          · simp at h
          · split at h
            · split at h
              · simp only [Prod.mk.injEq] at h
                exact absurd (by rw [← h.2]) hsz
              · simp only [Prod.mk.injEq] at h
                exact absurd (by rw [← h.2, savePathForRoot_size]) hsz
            · exact haddx _ _ _ _ _ _ _ _ h
        · exact haddx _ _ _ _ _ _ _ _ h

/-- Witness for the amended C4 at the concrete insertion into `m4`. -/
theorem C4_witness :
    ∃ m₁, ({ m4 with
             root := Lnk.node [10, 20] [some 1, some 2] [Lnk.nil, Lnk.nil, Lnk.nil]
             size := 2 } : Mast) = { m₁ with size := m₁.size + 1 } ∧
      (m₁.size < m₁.growAfterSize ∨
       ∃ n, mload m₁ m₁.root = .ok n ∧
         canGrow n m₁.height m₁.keyLayer m₁.branchFactor = .ok false) :=
  C4_insert_growloop_before_increment.2 m4 20 (some 2) 9
    { m4 with
      root := Lnk.node [10, 20] [some 1, some 2] [Lnk.nil, Lnk.nil, Lnk.nil]
      size := 2 } rfl (by decide)

theorem decodeEntries_ok_length (m : Mast) (id : String) :
    ∀ (kbs vbs : List Bytes) (s : Nat) (ks : List K) (vs : List V),
      decodeEntries m id kbs vbs s = .ok (ks, vs) → kbs.length = vbs.length →
      ks.length = kbs.length := by
  intro kbs
  induction kbs with
  | nil =>
    intro vbs s ks vs h _
    simp only [decodeEntries] at h
    cases vbs with
    | nil =>
      simp only [Except.ok.injEq, Prod.mk.injEq] at h
      rw [← h.1]
      rfl
    | cons vb vrest =>
      simp only [Except.ok.injEq, Prod.mk.injEq] at h
      rw [← h.1]
      rfl
  | cons kb krest ih =>
    intro vbs s ks vs h hlen
    cases vbs with
    | nil => simp at hlen
    | cons vb vrest =>
      simp only [decodeEntries] at h
      split at h
      · simp at h
      · split at h
        · simp at h
        · split at h
          · simp at h
          · next ks' vs' heq =>
            simp only [Except.ok.injEq, Prod.mk.injEq] at h
            rw [← h.1]
            simp only [List.length_cons]
            rw [ih vrest (s + 1) ks' vs' heq (by simpa using hlen)]

theorem decodeEntries_key_err (m : Mast) (id : String) :
    ∀ (kbs vbs : List Bytes) (s j : Nat) (e : Err),
      kbs.length = vbs.length → j < kbs.length →
      (∀ t, t < j → (∃ kk, m.unmarshalKey (kbs.getD t []) = .ok kk) ∧
        (m.zeroValue = true → ∃ vv, m.unmarshalVal (vbs.getD t []) = .ok vv)) →
      m.unmarshalKey (kbs.getD j []) = .error e →
      decodeEntries m id kbs vbs s = .error (.keyUnmarshal (s + j) id e) := by
  intro kbs
  induction kbs with
  | nil => intro vbs s j e _ hj _ _; simp at hj
  | cons kb krest ih =>
    intro vbs s j e hlen hj hpre hje
    cases vbs with
    | nil => simp at hlen
    | cons vb vrest =>
      cases j with
      | zero =>
        rw [List.getD_cons_zero] at hje
        simp only [decodeEntries, hje]
        simp
      | succ j' =>
        obtain ⟨⟨kk, hk⟩, hv⟩ := hpre 0 (Nat.succ_pos j')
        rw [List.getD_cons_zero] at hk hv
        rw [List.getD_cons_succ] at hje
        have hrec := ih vrest (s + 1) j' e (by simpa using hlen) (by simpa using hj)
          (fun t ht => by
            have := hpre (t + 1) (by omega)
            rwa [List.getD_cons_succ, List.getD_cons_succ] at this)
          hje
        have harith : s + 1 + j' = s + (j' + 1) := by omega
        rw [harith] at hrec
        simp only [decodeEntries, hk]
        by_cases hz : m.zeroValue
        · obtain ⟨vv, hvv⟩ := hv hz
          simp only [hz, if_true, hvv, hrec]
        · simp only [hz]
          simp only [Bool.false_eq_true, if_false, hrec]

theorem decodeEntries_val_err (m : Mast) (id : String) :
    ∀ (kbs vbs : List Bytes) (s j : Nat) (e : Err),
      kbs.length = vbs.length → j < kbs.length → m.zeroValue = true →
      (∀ t, t < j → (∃ kk, m.unmarshalKey (kbs.getD t []) = .ok kk) ∧
        (∃ vv, m.unmarshalVal (vbs.getD t []) = .ok vv)) →
      (∃ kk, m.unmarshalKey (kbs.getD j []) = .ok kk) →
      m.unmarshalVal (vbs.getD j []) = .error e →
      decodeEntries m id kbs vbs s = .error (.valueUnmarshal (s + j) id e) := by
  intro kbs
  induction kbs with
  | nil => intro vbs s j e _ hj _ _ _ _; simp at hj
  | cons kb krest ih =>
    intro vbs s j e hlen hj hz hpre hkj hje
    cases vbs with
    | nil => simp at hlen
    | cons vb vrest =>
      cases j with
      | zero =>
        obtain ⟨kk, hk⟩ := hkj
        rw [List.getD_cons_zero] at hk
        rw [List.getD_cons_zero] at hje
        simp only [decodeEntries, hk, hz, if_true, hje]
        simp
      | succ j' =>
        obtain ⟨⟨kk, hk⟩, ⟨vv, hvv⟩⟩ := hpre 0 (Nat.succ_pos j')
        rw [List.getD_cons_zero] at hk hvv
        rw [List.getD_cons_succ] at hje hkj
        have hrec := ih vrest (s + 1) j' e (by simpa using hlen) (by simpa using hj) hz
          (fun t ht => by
            have := hpre (t + 1) (by omega)
            rwa [List.getD_cons_succ, List.getD_cons_succ] at this)
          hkj hje
        have harith : s + 1 + j' = s + (j' + 1) := by omega
        rw [harith] at hrec
        simp only [decodeEntries, hk, hz, if_true, hvv, hrec]

theorem fillLinks_some_length :
    ∀ (ls : List String) (acc : List Lnk) (i : Nat) (out : List Lnk),
      fillLinks ls acc i = some out → out.length = acc.length := by
  intro ls
  induction ls with
  | nil =>
    intro acc i out h
    simp only [fillLinks, Option.some.injEq] at h
    rw [← h]
  | cons s rest ih =>
    intro acc i out h
    simp only [fillLinks] at h
    split at h
    · have := ih _ _ _ h
      rw [this, List.length_set]
    · simp at h

theorem fillLinks_getElem :
    ∀ (ls : List String) (acc : List Lnk) (i : Nat) (out : List Lnk),
      fillLinks ls acc i = some out →
      ∀ j : Nat,
        out[j]? = if i ≤ j ∧ j < i + ls.length then some (lnkOfStr (ls.getD (j - i) ""))
                  else acc[j]? := by
  intro ls
  induction ls with
  | nil =>
    intro acc i out h j
    simp only [fillLinks, Option.some.injEq] at h
    subst h
    rw [if_neg (by simp only [List.length_nil]; omega)]
  | cons s rest ih =>
    intro acc i out h j
    simp only [fillLinks] at h
    split at h
    · next hi =>
      have hj := ih _ _ _ h j
      rw [hj]
      by_cases h1 : j < i
      · rw [if_neg (by omega), if_neg (by omega), List.getElem?_set, if_neg (by omega)]
      · by_cases h2 : j = i
        · subst h2
          rw [if_neg (by omega), if_pos (by simp only [List.length_cons]; omega), List.getElem?_set,
            if_pos rfl, if_pos hi]
          simp
        · by_cases h3 : j < i + 1 + rest.length
          · rw [if_pos (by omega), if_pos (by simp only [List.length_cons]; omega)]
            have harith : j - i = (j - (i + 1)) + 1 := by omega
            rw [harith, List.getD_cons_succ]
          · rw [if_neg (by omega), if_neg (by simp only [List.length_cons]; omega), List.getElem?_set,
              if_neg (by omega)]
    · simp at h

/-- C8: loading a node by content hash fails with a decoding error when the
serialized `Key` and `Value` arrays have different lengths; when a key or value blob
does not parse, the error carries the failing index and the node id (`key[j] in
<id>` / `value[j] in <id>`); on success the node has exactly `len(Key) + 1` links,
an empty-string link decodes to nil (`lnkOfStr`), an omitted `Link` array decodes to
all-nil links, and a present `Link` array fills the leading slots, the rest staying
nil. -/
theorem C8_load_decoding :
    (∀ (m : Mast) (id : String) (p : PersistM) (bytes : Bytes) (sn : stringNodeT),
       m.persist = some p → p.loadFn id = .ok bytes → m.unmarshalNode bytes = .ok sn →
       sn.Key.length ≠ sn.Value.length →
       contentHash.Load m id = .err (.mismatchedKV id)) ∧
    (∀ (m : Mast) (id : String) (p : PersistM) (bytes : Bytes) (sn : stringNodeT)
       (j : Nat) (e : Err),
       m.persist = some p → p.loadFn id = .ok bytes → m.unmarshalNode bytes = .ok sn →
       sn.Key.length = sn.Value.length → j < sn.Key.length →
       (∀ t, t < j → (∃ kk, m.unmarshalKey (sn.Key.getD t []) = .ok kk) ∧
         (m.zeroValue = true → ∃ vv, m.unmarshalVal (sn.Value.getD t []) = .ok vv)) →
       m.unmarshalKey (sn.Key.getD j []) = .error e →
       contentHash.Load m id = .err (.keyUnmarshal j id e)) ∧
    (∀ (m : Mast) (id : String) (p : PersistM) (bytes : Bytes) (sn : stringNodeT)
       (j : Nat) (e : Err),
       m.persist = some p → p.loadFn id = .ok bytes → m.unmarshalNode bytes = .ok sn →
       sn.Key.length = sn.Value.length → j < sn.Key.length → m.zeroValue = true →
       (∀ t, t < j → (∃ kk, m.unmarshalKey (sn.Key.getD t []) = .ok kk) ∧
         (∃ vv, m.unmarshalVal (sn.Value.getD t []) = .ok vv)) →
       (∃ kk, m.unmarshalKey (sn.Key.getD j []) = .ok kk) →
       m.unmarshalVal (sn.Value.getD j []) = .error e →
       contentHash.Load m id = .err (.valueUnmarshal j id e)) ∧
    (∀ (m : Mast) (id : String) (n : mastNode),
       contentHash.Load m id = .ok n → n.Link.length = n.Key.length + 1) ∧
    (lnkOfStr "" = Lnk.nil ∧ ∀ s : String, s ≠ "" → lnkOfStr s = Lnk.hash s) ∧
    (∀ (m : Mast) (id : String) (p : PersistM) (bytes : Bytes) (sn : stringNodeT)
       (ks : List K) (vs : List V),
       m.persist = some p → p.loadFn id = .ok bytes → m.unmarshalNode bytes = .ok sn →
       sn.Key.length = sn.Value.length →
       decodeEntries m id sn.Key sn.Value 0 = .ok (ks, vs) →
       (sn.Link = none →
          contentHash.Load m id =
            .ok ⟨ks, vs, List.replicate (sn.Key.length + 1) Lnk.nil⟩) ∧
       (∀ (ls : List String) (out : List Lnk), sn.Link = some ls →
          fillLinks ls (List.replicate (sn.Key.length + 1) Lnk.nil) 0 = some out →
          contentHash.Load m id = .ok ⟨ks, vs, out⟩ ∧
          (∀ j, j < ls.length → out[j]? = some (lnkOfStr (ls.getD j ""))) ∧
          (∀ j, ls.length ≤ j → j < sn.Key.length + 1 → out[j]? = some Lnk.nil))) := by
  refine ⟨?_, ?_, ?_, ?_, ⟨rfl, ?_⟩, ?_⟩
  · intro m id p bytes sn hp hl hu hne
    unfold contentHash.Load
    simp only [hp, hl, hu]
    rw [if_pos hne]
  · intro m id p bytes sn j e hp hl hu hlen hj hpre hje
    have hdec := decodeEntries_key_err m id sn.Key sn.Value 0 j e hlen hj hpre hje
    rw [Nat.zero_add] at hdec
    unfold contentHash.Load
    simp only [hp, hl, hu]
    rw [if_neg (by simp [hlen])]
    simp only [hdec]
  · intro m id p bytes sn j e hp hl hu hlen hj hz hpre hkj hje
    have hdec := decodeEntries_val_err m id sn.Key sn.Value 0 j e hlen hj hz hpre hkj hje
    rw [Nat.zero_add] at hdec
    unfold contentHash.Load
    simp only [hp, hl, hu]
    rw [if_neg (by simp [hlen])]
    simp only [hdec]
  · intro m id n h
    unfold contentHash.Load at h
    split at h
    · simp at h
    · split at h
      · simp at h
      · split at h
        · simp at h
        · split at h
          · simp at h
          · next hlen' =>
            split at h
            · simp at h
            · next ks vs hdec =>
              have hkv : (stringNodeT.Key _).length = (stringNodeT.Value _).length :=
                not_ne_iff.mp hlen'
              have hkl := decodeEntries_ok_length m id _ _ 0 ks vs hdec hkv
              split at h
              · simp only [Res.ok.injEq] at h
                rw [← h]
                simp only [List.length_replicate]
                omega
              · split at h
                · simp at h
                · next links hfill =>
                  simp only [Res.ok.injEq] at h
                  rw [← h]
                  have h1 := fillLinks_some_length _ _ _ _ hfill
                  simp only [h1, List.length_replicate]
                  omega
  · intro s hs
    unfold lnkOfStr
    rw [if_neg hs]
  · intro m id p bytes sn ks vs hp hl hu hlen hdec
    constructor
    · intro hlink
      unfold contentHash.Load
      simp only [hp, hl, hu]
      rw [if_neg (by simp [hlen])]
      simp only [hdec, hlink]
    · intro ls out hlink hfill
      refine ⟨?_, ?_, ?_⟩
      · unfold contentHash.Load
        simp only [hp, hl, hu]
        rw [if_neg (by simp [hlen])]
        simp only [hdec, hlink, hfill]
      · intro j hjl
        have := fillLinks_getElem ls _ 0 out hfill j
        rw [this, if_pos ⟨Nat.zero_le j, by omega⟩, Nat.sub_zero]
      · intro j hge hlt
        have := fillLinks_getElem ls _ 0 out hfill j
        rw [this, if_neg (by omega), List.getElem?_replicate, if_pos hlt]

/-- Witness for C8 at the five concrete serialized nodes served by `pm8`:
mismatched lengths (`"A"`), failing key blob at index 0 (`"B"`), failing value blob
at index 0 (`"E"`), link-count and link decoding of a loaded node (`"C"`), and an
omitted `Link` array (`"D"`). -/
theorem C8_witness :
    contentHash.Load m8 "A" = .err (.mismatchedKV "A") ∧
    contentHash.Load m8 "B" = .err (.keyUnmarshal 0 "B" (.external "badkey")) ∧
    contentHash.Load m8 "E" = .err (.valueUnmarshal 0 "E" (.external "badval")) ∧
    ((⟨[1], [some 1], [Lnk.nil, Lnk.hash "x"]⟩ : mastNode).Link.length =
      (⟨[1], [some 1], [Lnk.nil, Lnk.hash "x"]⟩ : mastNode).Key.length + 1) ∧
    lnkOfStr "x" = Lnk.hash "x" ∧
    contentHash.Load m8 "D" = .ok ⟨[1], [some 1], List.replicate 2 Lnk.nil⟩ ∧
    contentHash.Load m8 "C" = .ok ⟨[1], [some 1], [Lnk.nil, Lnk.hash "x"]⟩ :=
  ⟨C8_load_decoding.1 m8 "A" pm8 [1] ⟨[[1], [2]], [[1]], none⟩ rfl rfl rfl (by decide),
   C8_load_decoding.2.1 m8 "B" pm8 [2] ⟨[[9]], [[1]], none⟩ 0 (.external "badkey")
     rfl rfl rfl rfl (by decide) (fun t ht => absurd ht (by omega)) rfl,
   C8_load_decoding.2.2.1 m8 "E" pm8 [5] ⟨[[1]], [[9]], none⟩ 0 (.external "badval")
     rfl rfl rfl rfl (by decide) rfl (fun t ht => absurd ht (by omega)) ⟨1, rfl⟩ rfl,
   C8_load_decoding.2.2.2.1 m8 "C" ⟨[1], [some 1], [Lnk.nil, Lnk.hash "x"]⟩ rfl,
   C8_load_decoding.2.2.2.2.1.2 "x" (by decide),
   (C8_load_decoding.2.2.2.2.2 m8 "D" pm8 [4] ⟨[[1]], [[1]], none⟩ [1] [some 1]
     rfl rfl rfl rfl rfl).1 rfl,
   ((C8_load_decoding.2.2.2.2.2 m8 "C" pm8 [3] ⟨[[1]], [[1]], some ["", "x"]⟩ [1] [some 1]
     rfl rfl rfl rfl rfl).2 ["", "x"] [Lnk.nil, Lnk.hash "x"] rfl rfl).1⟩
